import Mathlib

/-!
Verification of the markdown-to-inline-styled-HTML renderer
(`markdown_render/render.py`) against its natural-language specification.

The renderer is shallowly embedded: text is modelled as `List Char`, the
document as a list of lines, and every parser of the Python source is
translated into an executable Lean function.  Regular-expression based
substitutions are translated into specialized scanners that reproduce the
exact semantics (leftmost non-overlapping matches, lazy/greedy quantifiers,
lookarounds) of the concrete patterns appearing in the source.
Loops whose cursor progress is not structural are given an explicit fuel
parameter; the public wrappers instantiate the fuel with a bound that is
sufficient for every input (each iteration consumes at least one character
or line), keeping every definition kernel-computable.
-/

set_option maxRecDepth 100000

namespace MdRender

/-- Text, as the Python `str` manipulated by the renderer. -/
abbrev Str := List Char

/-- Coerce a Lean string literal to the `List Char` representation. -/
def S (s : String) : Str := s.data

/-- Python `\s` (whitespace class) for the characters that can occur here. -/
def pyWs (c : Char) : Bool :=
  c = ' ' || c = '\t' || c = '\n' || c = '\r' || c = '\x0b' || c = '\x0c'

/-- Python `str.strip()`: remove leading and trailing whitespace. -/
def pyStrip (l : Str) : Str :=
  ((l.dropWhile pyWs).reverse.dropWhile pyWs).reverse

/-- Python `str.strip('|')`: remove all leading and trailing pipe characters. -/
def stripPipes (l : Str) : Str :=
  ((l.dropWhile (· = '|')).reverse.dropWhile (· = '|')).reverse

/-- `isPre pat l` holds when `pat` is a prefix of `l` (Python `startswith`). -/
def isPre : Str → Str → Bool
  | [], _ => true
  | _ :: _, [] => false
  | p :: ps, c :: cs => p = c && isPre ps cs

/-- Python `'\n'.join`. -/
def joinNl : List Str → Str
  | [] => []
  | [l] => l
  | l :: l2 :: ls => l ++ '\n' :: joinNl (l2 :: ls)

/-- Python `' '.join`. -/
def joinSp : List Str → Str
  | [] => []
  | [l] => l
  | l :: l2 :: ls => l ++ ' ' :: joinSp (l2 :: ls)

/-- Python `text.split('\n')` (never returns an empty list). -/
def splitNl : Str → List Str
  | [] => [[]]
  | c :: rest =>
    if c = '\n' then [] :: splitNl rest
    else
      match splitNl rest with
      | l :: ls => (c :: l) :: ls
      | [] => [[c]]

/-- Python `text.split('|')`. -/
def splitPipe : Str → List Str
  | [] => [[]]
  | c :: rest =>
    if c = '|' then [] :: splitPipe rest
    else
      match splitPipe rest with
      | l :: ls => (c :: l) :: ls
      | [] => [[c]]

/-- Does `pat` occur as a contiguous substring of `l`? -/
def containsSub (l pat : Str) : Bool :=
  match l with
  | [] => isPre pat []
  | _ :: rest => isPre pat l || containsSub rest pat

/-- Index of the first occurrence of `pat` in `l` (`l.length` if absent). -/
def idxOfSub (l pat : Str) : Nat :=
  match l with
  | [] => 0
  | _ :: rest => if isPre pat l then 0 else idxOfSub rest pat + 1

/-- Number of occurrences of `pat` in `l` (at distinct start positions). -/
def countSub (l pat : Str) : Nat :=
  match l with
  | [] => 0
  | _ :: rest => (if isPre pat l then 1 else 0) + countSub rest pat

/-- `html.escape` with `quote=True`, as used by the source's `escape`:
each of `& < > " '` is rewritten to its entity, every other character kept. -/
def escapeChar (c : Char) : Str :=
  if c = '&' then S "&amp;"
  else if c = '<' then S "&lt;"
  else if c = '>' then S "&gt;"
  else if c = '"' then S "&quot;"
  else if c = '\x27' then S "&#x27;"
  else [c]

/-- HTML-escape a text (the source's `escape` helper). -/
def escapeL (l : Str) : Str := l.flatMap escapeChar

/-- Escaping used inside code spans: `escape` followed by
`code.replace('$', '&#36;')` (the `$` neutralisation). -/
def escapeCodeSpan (l : Str) : Str :=
  l.flatMap fun c => if c = '$' then S "&#36;" else escapeChar c

/-- Python `str.replace('  ', '&nbsp;&nbsp;')`: left-to-right,
non-overlapping replacement of double spaces. -/
def nbspPairs : Str → Str
  | ' ' :: ' ' :: rest => S "&nbsp;&nbsp;" ++ nbspPairs rest
  | c :: rest => c :: nbspPairs rest
  | [] => []

/-- UTF-8 encoding of one character (code points are valid scalars). -/
def utf8Bytes (c : Char) : List Nat :=
  let n := c.toNat
  if n < 0x80 then [n]
  else if n < 0x800 then [0xC0 + n / 64, 0x80 + n % 64]
  else if n < 0x10000 then
    [0xE0 + n / 4096, 0x80 + n / 64 % 64, 0x80 + n % 64]
  else
    [0xF0 + n / 262144, 0x80 + n / 4096 % 64, 0x80 + n / 64 % 64, 0x80 + n % 64]

/-- The base64 alphabet. -/
def b64Char (n : Nat) : Char :=
  (S "ABCDEFGHIJKLMNOPQRSTUVWXYZabcdefghijklmnopqrstuvwxyz0123456789+/").getD n '='

/-- Standard base64 of a byte list, with `=` padding
(Python `base64.b64encode`). -/
def b64Bytes : List Nat → Str
  | b1 :: b2 :: b3 :: rest =>
    b64Char (b1 / 4) :: b64Char (b1 % 4 * 16 + b2 / 16) ::
    b64Char (b2 % 16 * 4 + b3 / 64) :: b64Char (b3 % 64) :: b64Bytes rest
  | [b1, b2] =>
    [b64Char (b1 / 4), b64Char (b1 % 4 * 16 + b2 / 16), b64Char (b2 % 16 * 4), '=']
  | [b1] => [b64Char (b1 / 4), b64Char (b1 % 4 * 16), '=', '=']
  | [] => []

/-- `base64.b64encode(text.encode('utf-8')).decode('ascii')`. -/
def b64Utf8 (l : Str) : Str := b64Bytes (l.flatMap utf8Bytes)

/-! ## The style table (`STYLES` and the theme constants of the source) -/

def fontFamily : Str := S
  "-apple-system-font, BlinkMacSystemFont, \x27Helvetica Neue\x27, \x27PingFang SC\x27, \x27Hiragino Sans GB\x27, \x27Microsoft YaHei UI\x27, \x27Microsoft YaHei\x27, Arial, sans-serif"

def containerStyle : Str :=
  S "font-family: " ++ fontFamily ++ S "; font-size: 16px; line-height: 1.75; text-align: left;"

def h1Style : Str := S
  "display: table; border-bottom: 2px solid #FA5151; margin: 2em auto 1em; font-weight: bold; text-align: center; padding: 0.5em 1em; font-size: 22.4px; text-shadow: 1px 1px 3px rgba(0, 0, 0, 0.05); color: #FA5151; background: transparent;"

def h2Style : Str := S
  "margin: 2em 8px 0.75em 0; color: #3f3f3f; font-weight: bold; padding-left: 12px; font-size: 19.2px; border-radius: 6px; line-height: 2.4em; border-left: 4px solid #FA5151; border-right: 1px solid color-mix(in srgb, #FA5151 10%, transparent); border-bottom: 1px solid color-mix(in srgb, #FA5151 10%, transparent); border-top: 1px solid color-mix(in srgb, #FA5151 10%, transparent); background: color-mix(in srgb, #FA5151 8%, transparent);"

def h3Style : Str := S
  "margin: 2em 8px 0.5em; font-weight: bold; display: block; text-align: left; background: transparent; margin-left: 0; padding-left: 10px; border-left: 4px solid #FA5151; color: #FA5151; font-size: 17.6px; border-radius: 6px;"

def h4Style : Str := S
  "margin: 1.5em 8px 0.5em; font-weight: bold; display: block; text-align: left; background: transparent; margin-left: 0; padding-left: 10px; border-left: 4px solid #FA5151; color: #FA5151; font-size: 16px; border-radius: 6px;"

def h5Style : Str := S
  "margin: 1.5em 8px 0.5em; display: block; text-align: left; background: transparent; margin-left: 0; padding-left: 10px; border-left: 4px solid #FA5151; color: #FA5151; font-size: 16px; border-radius: 6px;"

def h6Style : Str := h5Style

def pStyle : Str := S "margin: 1.5em 8px; letter-spacing: 0.1em; color: #3f3f3f;"

def ulStyle : Str := S "margin-left: 0; color: #3f3f3f; list-style: none; padding-left: 1.5em;"

def olStyle : Str := S "margin-left: 0; color: #3f3f3f; padding-left: 1.5em;"

def liStyle : Str := S "display: block; color: #3f3f3f; margin: 0.5em 8px;"

def strongStyle : Str := S "color: #FA5151; font-weight: bold; font-size: inherit;"

def emStyle : Str := S "font-style: italic; font-size: inherit;"

def codespanStyle : Str := S
  "font-size: 90%; color: #d14; background: rgba(27, 31, 35, 0.05); padding: 3px 5px; border-radius: 4px;"

def codeBlockStyle : Str := S
  "color: #c9d1d9; background: #0d1117; font-size: 90%; overflow-x: auto; border-radius: 8px; line-height: 1.5; margin: 10px 8px; border: 1px solid rgba(0, 0, 0, 0.04); padding: 0 !important;"

def codeInnerStyle : Str := S
  "font-size: 90%; border-radius: 4px; display: -webkit-box; padding: 0.5em 1em 1em; overflow-x: auto; text-indent: 0; color: inherit; background: none; white-space: pre; margin: 0; font-family: \x27Fira Code\x27, Menlo, Operator Mono, Consolas, Monaco, monospace;"

def blockquoteStyle : Str := S
  "border-left: 4px solid #FA5151; border-radius: 6px; background: #f7f7f7; margin-bottom: 1em; font-style: italic; padding: 1em 1em 1em 2em; color: rgba(0, 0, 0, 0.6); border-bottom: 0.2px solid rgba(0, 0, 0, 0.04); border-top: 0.2px solid rgba(0, 0, 0, 0.04); border-right: 0.2px solid rgba(0, 0, 0, 0.04);"

def blockquotePStyle : Str := S
  "display: block; font-size: 1em; letter-spacing: 0.1em; color: #3f3f3f; margin: 0;"

def linkStyle : Str := S "color: #576b95; text-decoration: none;"

def imgStyle : Str := S
  "display: block; max-width: 100%; margin: 0.1em auto 0.5em; border-radius: 8px; border: 1px solid rgba(0, 0, 0, 0.04);"

def figcaptionStyle : Str := S "text-align: center; color: #888; font-size: 0.8em;"

def hrStyle : Str := S
  "height: 1px; border: none; margin: 2em 0; background: linear-gradient(to right, rgba(0,0,0,0), rgba(0,0,0,0.1), rgba(0,0,0,0));"

def tableStyle : Str := S "color: #3f3f3f; margin-top: 0 !important;"

def thStyle : Str := S
  "border: 1px solid #dfdfdf; padding: 0.25em 0.5em; color: #3f3f3f; word-break: keep-all; background: rgba(0, 0, 0, 0.05);"

def tdStyle : Str := S
  "border: 1px solid #dfdfdf; padding: 0.25em 0.5em; color: #3f3f3f; word-break: keep-all;"

/-- The `MAC_DOTS_SVG` ornament prefixed to code blocks. -/
def macDotsSvg : Str := S
  "<span style=\"display: flex; padding: 10px 14px 0;\"><svg xmlns=\"http://www.w3.org/2000/svg\" width=\"45px\" height=\"13px\" viewBox=\"0 0 450 130\"><ellipse cx=\"50\" cy=\"65\" rx=\"50\" ry=\"52\" stroke=\"rgb(220,60,54)\" stroke-width=\"2\" fill=\"rgb(237,108,96)\"></ellipse><ellipse cx=\"225\" cy=\"65\" rx=\"50\" ry=\"52\" stroke=\"rgb(218,151,33)\" stroke-width=\"2\" fill=\"rgb(247,193,81)\"></ellipse><ellipse cx=\"400\" cy=\"65\" rx=\"50\" ry=\"52\" stroke=\"rgb(27,161,37)\" stroke-width=\"2\" fill=\"rgb(100,200,86)\"></ellipse></svg></span>"

/-! ## Inline transform pipeline (`render_inline`)

Each `re.sub` of the source becomes a scanner specialized to its pattern.
All scanners take fuel; with fuel `0` the remaining text is emitted
unchanged, and the wrappers supply fuel equal to the text length, which is
always sufficient because every recursive call drops at least one input
character. -/

/-- Replacement for a code-span match:
`<code style="...">{escaped, $-neutralised content}</code>`. -/
def codeSpanRepl (content : Str) : Str :=
  S "<code style=\"" ++ codespanStyle ++ S "\">" ++ escapeCodeSpan content ++ S "</code>"

/-- `re.sub(r'`([^`]+)`', replace_code, text)`. -/
def subCodeGo : Nat → Str → Str
  | 0, l => l
  | _ + 1, [] => []
  | fuel + 1, c :: rest =>
    if c = '`' then
      match rest.dropWhile (· ≠ '`') with
      | '`' :: r2 =>
        let content := rest.takeWhile (· ≠ '`')
        if content = [] then c :: subCodeGo fuel rest
        else codeSpanRepl content ++ subCodeGo fuel r2
      | _ => c :: subCodeGo fuel rest
    else c :: subCodeGo fuel rest

def subCode (l : Str) : Str := subCodeGo l.length l

/-- Replacement for an image match. -/
def imgRepl (alt src : Str) : Str :=
  S "<figure style=\"margin: 1.5em 8px; color: #3f3f3f;\"><img src=\"" ++ src ++
  S "\" alt=\"" ++ escapeL alt ++ S "\" style=\"" ++ imgStyle ++
  S "\"><figcaption style=\"" ++ figcaptionStyle ++ S "\">" ++ escapeL alt ++
  S "</figcaption></figure>"

/-- `re.sub(r'!\[([^\]]*)\]\(([^)]+)\)', replace_img, text)`. -/
def subImageGo : Nat → Str → Str
  | 0, l => l
  | _ + 1, [] => []
  | fuel + 1, c :: rest =>
    if c = '!' then
      match rest with
      | '[' :: r1 =>
        let alt := r1.takeWhile (· ≠ ']')
        match r1.dropWhile (· ≠ ']') with
        | ']' :: '(' :: r2 =>
          let src := r2.takeWhile (· ≠ ')')
          match r2.dropWhile (· ≠ ')') with
          | ')' :: r3 =>
            if src = [] then c :: subImageGo fuel rest
            else imgRepl alt src ++ subImageGo fuel r3
          | _ => c :: subImageGo fuel rest
        | _ => c :: subImageGo fuel rest
      | _ => c :: subImageGo fuel rest
    else c :: subImageGo fuel rest

def subImage (l : Str) : Str := subImageGo l.length l

/-- Replacement for a link match (the label is inserted un-escaped in the
anchor body, escaped in the `title` attribute, exactly as in the source). -/
def linkRepl (label href : Str) : Str :=
  S "<a href=\"" ++ href ++ S "\" title=\"" ++ escapeL label ++
  S "\" style=\"" ++ linkStyle ++ S "\">" ++ label ++ S "</a>"

/-- `re.sub(r'\[([^\]]+)\]\(([^)]+)\)', replace_link, text)`. -/
def subLinkGo : Nat → Str → Str
  | 0, l => l
  | _ + 1, [] => []
  | fuel + 1, c :: rest =>
    if c = '[' then
      let label := rest.takeWhile (· ≠ ']')
      match rest.dropWhile (· ≠ ']') with
      | ']' :: '(' :: r2 =>
        let href := r2.takeWhile (· ≠ ')')
        match r2.dropWhile (· ≠ ')') with
        | ')' :: r3 =>
          if label = [] || href = [] then c :: subLinkGo fuel rest
          else linkRepl label href ++ subLinkGo fuel r3
        | _ => c :: subLinkGo fuel rest
      | _ => c :: subLinkGo fuel rest
    else c :: subLinkGo fuel rest

def subLink (l : Str) : Str := subLinkGo l.length l

/-- Replacement for an inline math match. -/
def inlineMathRepl (formula : Str) : Str :=
  S "<span class=\"katex-inline-render\" data-formula-b64=\"" ++ b64Utf8 formula ++
  S "\" style=\"max-width: 100%; overflow-x: auto;\"><code style=\"font-style: italic; color: #FA5151;\">" ++
  escapeL formula ++ S "</code></span>"

/-- `re.sub(r'(?<!\$)\$([^\$]+?)\$(?!\$)', replace_inline_math, text)`.
`prev` is the character preceding the scan position in the subject string
(for the lookbehind). -/
def subMathGo : Nat → Option Char → Str → Str
  | 0, _, l => l
  | _ + 1, _, [] => []
  | fuel + 1, prev, c :: rest =>
    if c = '$' ∧ prev ≠ some '$' then
      match rest.dropWhile (· ≠ '$') with
      | '$' :: r2 =>
        let content := rest.takeWhile (· ≠ '$')
        if content ≠ [] ∧ r2.head? ≠ some '$' then
          inlineMathRepl content ++ subMathGo fuel (some '$') r2
        else c :: subMathGo fuel (some c) rest
      | _ => c :: subMathGo fuel (some c) rest
    else c :: subMathGo fuel (some c) rest

def subMath (l : Str) : Str := subMathGo l.length none l

/-- Lazy search for the earliest closing `marker` at offset ≥ 1, with a
nonempty run of non-newline characters before it (the semantics of
`(.+?)` followed by the marker).  Returns the content and what follows
the closing marker. -/
def lazyClose (marker : Str) : Str → Option (Str × Str)
  | [] => none
  | c :: rest =>
    if c = '\n' then none
    else if isPre marker rest then some ([c], rest.drop marker.length)
    else
      match lazyClose marker rest with
      | some (content, r) => some (c :: content, r)
      | none => none

/-- Replacement for bold-italic. -/
def triRepl (content : Str) : Str :=
  S "<strong style=\"" ++ strongStyle ++ S "\"><em style=\"" ++ emStyle ++
  S "\">" ++ content ++ S "</em></strong>"

/-- `re.sub(r'\*\*\*(.+?)\*\*\*|___(.+?)___', ..., text)`. -/
def subTriGo : Nat → Str → Str
  | 0, l => l
  | _ + 1, [] => []
  | fuel + 1, c :: rest =>
    if c = '*' ∧ isPre (S "**") rest then
      match lazyClose (S "***") (rest.drop 2) with
      | some (content, r) => triRepl content ++ subTriGo fuel r
      | none => c :: subTriGo fuel rest
    else if c = '_' ∧ isPre (S "__") rest then
      match lazyClose (S "___") (rest.drop 2) with
      | some (content, r) => triRepl content ++ subTriGo fuel r
      | none => c :: subTriGo fuel rest
    else c :: subTriGo fuel rest

def subTri (l : Str) : Str := subTriGo l.length l

/-- Replacement for bold. -/
def boldRepl (content : Str) : Str :=
  S "<strong style=\"" ++ strongStyle ++ S "\">" ++ content ++ S "</strong>"

/-- `re.sub(r'\*\*(.+?)\*\*|__(.+?)__', ..., text)`. -/
def subBoldGo : Nat → Str → Str
  | 0, l => l
  | _ + 1, [] => []
  | fuel + 1, c :: rest =>
    if c = '*' ∧ isPre (S "*") rest then
      match lazyClose (S "**") (rest.drop 1) with
      | some (content, r) => boldRepl content ++ subBoldGo fuel r
      | none => c :: subBoldGo fuel rest
    else if c = '_' ∧ isPre (S "_") rest then
      match lazyClose (S "__") (rest.drop 1) with
      | some (content, r) => boldRepl content ++ subBoldGo fuel r
      | none => c :: subBoldGo fuel rest
    else c :: subBoldGo fuel rest

def subBold (l : Str) : Str := subBoldGo l.length l

/-- Replacement for italic. -/
def emRepl (content : Str) : Str :=
  S "<em style=\"" ++ emStyle ++ S "\">" ++ content ++ S "</em>"

/-- `re.sub(r'(?<!\*)\*([^\*]+?)\*(?!\*)|(?<!_)_([^_]+?)_(?!_)', ..., text)`. -/
def subItalGo : Nat → Option Char → Str → Str
  | 0, _, l => l
  | _ + 1, _, [] => []
  | fuel + 1, prev, c :: rest =>
    if c = '*' ∧ prev ≠ some '*' then
      match rest.dropWhile (· ≠ '*') with
      | '*' :: r2 =>
        let content := rest.takeWhile (· ≠ '*')
        if content ≠ [] ∧ r2.head? ≠ some '*' then
          emRepl content ++ subItalGo fuel (some '*') r2
        else c :: subItalGo fuel (some c) rest
      | _ => c :: subItalGo fuel (some c) rest
    else if c = '_' ∧ prev ≠ some '_' then
      match rest.dropWhile (· ≠ '_') with
      | '_' :: r2 =>
        let content := rest.takeWhile (· ≠ '_')
        if content ≠ [] ∧ r2.head? ≠ some '_' then
          emRepl content ++ subItalGo fuel (some '_') r2
        else c :: subItalGo fuel (some c) rest
      | _ => c :: subItalGo fuel (some c) rest
    else c :: subItalGo fuel (some c) rest

def subItal (l : Str) : Str := subItalGo l.length none l

/-- `re.sub(r'~~(.+?)~~', r'<del>\1</del>', text)`. -/
def subDelGo : Nat → Str → Str
  | 0, l => l
  | _ + 1, [] => []
  | fuel + 1, c :: rest =>
    if c = '~' ∧ isPre (S "~") rest then
      match lazyClose (S "~~") (rest.drop 1) with
      | some (content, r) => S "<del>" ++ content ++ S "</del>" ++ subDelGo fuel r
      | none => c :: subDelGo fuel rest
    else c :: subDelGo fuel rest

def subDel (l : Str) : Str := subDelGo l.length l

/-- The full inline transform pipeline `render_inline`, in source order:
code spans, images, links, inline math, bold-italic, bold, italic,
strikethrough. -/
def renderInline (l : Str) : Str :=
  subDel (subItal (subBold (subTri (subMath (subLink (subImage (subCode l)))))))

/-! ## Line classification (the dispatcher's regular expressions) -/

/-- Length of the leading whitespace run (`len(re.match(r'^(\s*)', l).group(1))`). -/
def wsLen (l : Str) : Nat := (l.takeWhile pyWs).length

/-- `re.match(r'^#{1,6}\s', line)`: 1–6 leading `#` followed by whitespace.
A run of 7 or more `#` never matches (the quantifier is bounded). -/
def headingStart (l : Str) : Bool :=
  let r := (l.takeWhile (· = '#')).length
  1 ≤ r && r ≤ 6 && (match (l.drop r).head? with
                     | some c => pyWs c
                     | none => false)

/-- `re.match(r'^(#{1,6})\s+(.*)', line)`: heading level and content
(the content is the rest of the line after the whitespace run). -/
def headingMatch (l : Str) : Option (Nat × Str) :=
  if headingStart l then
    let r := (l.takeWhile (· = '#')).length
    some (r, (l.drop r).dropWhile pyWs)
  else none

/-- `re.match(r'^(\s*)[-*+]\s', line)`: unordered-list dispatch pattern. -/
def ulStartB (l : Str) : Bool :=
  match l.dropWhile pyWs with
  | m :: c :: _ => (m = '-' || m = '*' || m = '+') && pyWs c
  | _ => false

/-- `re.match(r'^(\s*)[-*+]\s+(.*)', line)`: indentation width and item text. -/
def ulMatch (l : Str) : Option (Nat × Str) :=
  match l.dropWhile pyWs with
  | m :: rest =>
    if (m = '-' || m = '*' || m = '+') && (match rest.head? with
                                           | some c => pyWs c
                                           | none => false) then
      some (wsLen l, rest.dropWhile pyWs)
    else none
  | [] => none

/-- `re.match(r'^(\s*)\d+\.\s', line)`: ordered-list dispatch pattern. -/
def olStartB (l : Str) : Bool :=
  let rest := l.dropWhile pyWs
  let ds := rest.takeWhile Char.isDigit
  ds ≠ [] && (match rest.drop ds.length with
              | '.' :: c :: _ => pyWs c
              | _ => false)

/-- `re.match(r'^(\s*)\d+\.\s+(.*)', line)`: indentation width and item text. -/
def olMatch (l : Str) : Option (Nat × Str) :=
  let rest := l.dropWhile pyWs
  let ds := rest.takeWhile Char.isDigit
  if ds = [] then none
  else
    match rest.drop ds.length with
    | '.' :: r2 =>
      if (match r2.head? with | some c => pyWs c | none => false) then
        some (wsLen l, r2.dropWhile pyWs)
      else none
    | _ => none

/-- `re.match(r'^(-{3,}|\*{3,}|_{3,})\s*$', line.strip())`: after stripping,
the line is three or more repetitions of one of `-`, `*`, `_` and nothing
else. -/
def isHrLine (l : Str) : Bool :=
  let s := pyStrip l
  match s with
  | c :: _ =>
    (c = '-' || c = '*' || c = '_') && s.length ≥ 3 && s.all (· = c)
  | [] => false

/-- `re.match(r'^\|[\s\-:|]+\|$', line.strip())`: the table separator row
(a leading `|`, a nonempty middle of `-`, `:`, `|` and whitespace, and a
trailing `|`). -/
def isTableSep (l : Str) : Bool :=
  let s := pyStrip l
  isPre (S "|") s && 3 ≤ s.length && s.getLast? = some '|' &&
    ((s.drop 1).take (s.length - 2)).all fun c => pyWs c || c = '-' || c = ':' || c = '|'

/-! ## Block parsers

Each helper mirrors one `_parse_*` / `_collect_*` method: it takes the
remaining lines, consumes a prefix, and returns its result together with
the unconsumed lines. -/

/-- Heading fragment for an already-consumed heading line
(`_parse_heading`).  `output` is the output sequence emitted so far: the
source adds the "no top margin" override to an `h1` whenever no previous
fragment contains the substring `class="h1"`. -/
def headingFrag (output : List Str) (l : Str) : List Str :=
  match headingMatch l with
  | none => []
  | some (level, content) =>
    let tag := S "h" ++ S (toString level)
    let style := if level = 1 then h1Style
                 else if level = 2 then h2Style
                 else if level = 3 then h3Style
                 else if level = 4 then h4Style
                 else if level = 5 then h5Style
                 else h6Style
    let style :=
      if level = 1 && !(output.any (fun o => containsSub o (S "class=\"h1\""))) then
        style ++ S " margin-top: 0 !important;"
      else style
    [S "<" ++ tag ++ S " style=\"" ++ style ++ S "\">" ++ renderInline content ++
     S "</" ++ tag ++ S ">"]

/-- Fence-line language tag: `re.match(r'^```(\w*)', line.strip()).group(1)`. -/
def fenceLang (l : Str) : Str :=
  ((pyStrip l).drop 3).takeWhile fun c =>
    c.isAlpha || c.isDigit || c = '_'

/-- Consume code-block content lines up to (and including) a closing
` ``` ` line or the end of input; returns (content lines, rest). -/
def codeConsume : List Str → List Str × List Str
  | [] => ([], [])
  | l :: rest =>
    if pyStrip l = S "```" then ([], rest)
    else
      let (cs, r) := codeConsume rest
      (l :: cs, r)

/-- The Mermaid placeholder fragment (`_render_mermaid`). -/
def mermaidFrag (code : Str) : Str :=
  S "<div class=\"mermaid-placeholder\" style=\"background: #f6f8fa; border: 1px solid #e1e4e8; border-radius: 8px; padding: 16px; margin: 10px 8px; text-align: center; color: #586069;\"><p style=\"margin: 0 0 8px; font-weight: bold; color: #FA5151;\">📊 Mermaid 图表</p><pre style=\"text-align: left; font-size: 13px; color: #3f3f3f; background: none; margin: 0; white-space: pre-wrap;\">" ++
  escapeL code ++
  S "</pre><p style=\"margin: 8px 0 0; font-size: 12px; color: #888;\">提示：在浏览器中打开可启用 Mermaid.js 渲染</p></div>"

/-- The styled code-block fragment for a non-Mermaid fence. -/
def codeFrag (lang escapedCode : Str) : Str :=
  S "<pre style=\"" ++ codeBlockStyle ++ S "\">" ++ macDotsSvg ++
  S "<code class=\"language-" ++ lang ++ S "\" style=\"" ++ codeInnerStyle ++
  S "\">" ++ escapedCode ++ S "</code></pre>"

/-- `_parse_code_block`: consume the fence line and the content, then emit
either a Mermaid placeholder or an escaped code block (double spaces are
converted to `&nbsp;` pairs). -/
def parseCodeBlock : List Str → List Str × List Str
  | [] => ([], [])
  | l :: rest =>
    let lang := fenceLang l
    let (cs, r) := codeConsume rest
    let codeText := joinNl cs
    if lang = S "mermaid" then ([mermaidFrag codeText], r)
    else ([codeFrag lang (nbspPairs (escapeL codeText))], r)

/-- Consume math-block content lines up to a `$$` line or end of input. -/
def mathConsume : List Str → List Str × List Str
  | [] => ([], [])
  | l :: rest =>
    if pyStrip l = S "$$" then ([], rest)
    else
      let (cs, r) := mathConsume rest
      (l :: cs, r)

/-- The block-math fragment for a nonempty formula. -/
def mathFrag (formula : Str) : Str :=
  S "<section class=\"katex-block-render\" data-formula-b64=\"" ++ b64Utf8 formula ++
  S "\" style=\"font-family: " ++ fontFamily ++
  S "; font-size: 16px; line-height: 1.75; max-width: 100%; overflow-x: auto; padding: 0.5em 0; text-align: center;\"><code style=\"font-size: 14px; color: #3f3f3f; background: rgba(27, 31, 35, 0.05); padding: 8px 16px; border-radius: 4px; display: inline-block; white-space: pre-wrap; text-align: left;\">" ++
  escapeL formula ++ S "</code></section>"

/-- `_parse_math_block`: skip the opening `$$` line, accumulate to the
closing `$$` or end of input; an empty (stripped) formula emits nothing. -/
def parseMathBlock : List Str → List Str × List Str
  | [] => ([], [])
  | _ :: rest =>
    let (cs, r) := mathConsume rest
    let formula := pyStrip (joinNl cs)
    if formula = [] then ([], r) else ([mathFrag formula], r)

/-- Split a consumed table line into cells:
`[c.strip() for c in line.strip().strip('|').split('|')]`. -/
def tableCells (l : Str) : List Str :=
  (splitPipe (stripPipes (pyStrip l))).map pyStrip

/-- The row-collection loop of `_parse_table`: consume every contiguous
line whose stripped form starts with `|`, discarding separator rows. -/
def tableConsume : List Str → List (List Str) × List Str
  | [] => ([], [])
  | l :: rest =>
    if isPre (S "|") (pyStrip l) then
      if isTableSep l then tableConsume rest
      else
        let (rows, r) := tableConsume rest
        (tableCells l :: rows, r)
    else ([], l :: rest)

def tableSectionStyle : Str :=
  S "font-family: " ++ fontFamily ++
  S "; font-size: 16px; line-height: 1.75; text-align: left; max-width: 100%; overflow: auto;"

/-- Render the collected rows: first row in a `<thead>`, the remaining
rows in a `<tbody>`, one `<tr>` per row. -/
def tableFrag (rows : List (List Str)) : Str :=
  let headerCells := (rows.headD []).map fun cell =>
    S "<th style=\"" ++ thStyle ++ S "\">" ++ renderInline cell ++ S "</th>"
  let bodyParts := (rows.drop 1).flatMap fun row =>
    S "<tr>" :: (row.map fun cell =>
      S "<td style=\"" ++ tdStyle ++ S "\">" ++ renderInline cell ++ S "</td>") ++ [S "</tr>"]
  joinNl ([S "<section style=\"" ++ tableSectionStyle ++ S "\">",
           S "<table style=\"" ++ tableStyle ++ S "\">",
           S "<thead style=\"font-weight: bold; color: #3f3f3f;\">",
           S "<tr>"] ++ headerCells ++
          [S "</tr></thead>", S "<tbody>"] ++ bodyParts ++
          [S "</tbody></table></section>"])

/-- `_parse_table`: collect rows; zero rows emit no fragment. -/
def parseTable (lines : List Str) : List Str × List Str :=
  let (rows, r) := tableConsume lines
  if rows = [] then ([], r) else ([tableFrag rows], r)

/-- Drop one leading whitespace character, if present (`\s?`). -/
def dropOneWs (r : Str) : Str :=
  match r with
  | c :: t => if pyWs c then t else c :: t
  | [] => []

/-- Strip the single leading `>` marker from a consumed blockquote line:
`re.sub(r'^>\s?', '', line, count=1)` (anchored, so a line whose `>` is
preceded by whitespace is kept unchanged). -/
def stripGtMarker (l : Str) : Str :=
  match l with
  | c :: rest => if c = '>' then dropOneWs rest else c :: rest
  | [] => []

/-- The one-line lookahead of `_parse_blockquote`:
`self.pos + 1 < len(self.lines) and self.lines[self.pos + 1].strip().startswith('>')`. -/
def nextStartsGt : List Str → Bool
  | l2 :: _ => isPre (S ">") (pyStrip l2)
  | [] => false

/-- The consumption loop of `_parse_blockquote`: take every line whose
stripped form starts with `>`, and every blank line immediately followed
by such a line. -/
def bqConsume : List Str → List Str × List Str
  | [] => ([], [])
  | l :: rest =>
    if isPre (S ">") (pyStrip l) then
      let (bs, r) := bqConsume rest
      (stripGtMarker l :: bs, r)
    else if pyStrip l = [] ∧ nextStartsGt rest = true then
      let (bs, r) := bqConsume rest
      ([] :: bs, r)
    else ([], l :: rest)

/-- `re.search(r'^>', inner_text, re.MULTILINE)` over the joined quote
content: some stripped line still starts with a column-0 `>`. -/
def bqHasNested (bs : List Str) : Bool :=
  bs.any fun b => isPre (S ">") b

/-- `re.sub(r'^<section[^>]*>|</section>$', '', s)`: remove a leading
`<section ...>` tag (through the first `>`) and a trailing `</section>`. -/
def stripSectionTags (s : Str) : Str :=
  let s1 :=
    if isPre (S "<section") s && (s.dropWhile (· ≠ '>')) ≠ [] then
      (s.dropWhile (· ≠ '>')).drop 1
    else s
  if isPre (S ">noitces/<") s1.reverse then (s1.reverse.drop 10).reverse else s1

/-- The one-line lookahead of `_parse_html_block`. -/
def nextStartsLt : List Str → Bool
  | l2 :: _ => isPre (S "<") (pyStrip l2)
  | [] => false

/-- `_parse_html_block`: consume contiguous HTML-looking lines; a blank
line stops the block unless the following line also starts with `<`. -/
def htmlConsume (started : Bool) : List Str → List Str × List Str
  | [] => ([], [])
  | l :: rest =>
    if pyStrip l = [] ∧ started = true then
      if nextStartsLt rest = true then
        let (hs, r) := htmlConsume true rest
        (l :: hs, r)
      else ([], l :: rest)
    else if isPre (S "<") (pyStrip l) || (started && !(pyStrip l).isEmpty) then
      let (hs, r) := htmlConsume true rest
      (l :: hs, r)
    else ([], l :: rest)

/-- The paragraph break test of `_parse_paragraph` (note: its raw-HTML
test excludes `<!`, slightly wider than the dispatcher's `<![`). -/
def paraBreak (l : Str) : Bool :=
  headingStart l ||
  isPre (S "```") (pyStrip l) ||
  isPre (S "$$") (pyStrip l) ||
  isPre (S ">") (pyStrip l) ||
  isPre (S "|") (pyStrip l) ||
  ulStartB l || olStartB l || isHrLine l ||
  (isPre (S "<") (pyStrip l) && !isPre (S "<!") (pyStrip l))

/-- The consumption loop of `_parse_paragraph`. -/
def paraConsume : List Str → List Str × List Str
  | [] => ([], [])
  | l :: rest =>
    if pyStrip l = [] then ([], l :: rest)
    else if paraBreak l then ([], l :: rest)
    else
      let (ps, r) := paraConsume rest
      (l :: ps, r)

/-- The paragraph fragment: consumed lines joined with one space,
inline-transformed, wrapped in a styled `<p>`. -/
def paraFrag (content : Str) : Str :=
  S "<p style=\"" ++ pStyle ++ S "\">" ++ content ++ S "</p>"

/-- `_parse_paragraph`: consumes lines and emits one fragment when any
line was consumed. -/
def parseParagraph (lines : List Str) : List Str × List Str :=
  let (ps, r) := paraConsume lines
  if ps = [] then ([], r) else ([paraFrag (renderInline (joinSp ps))], r)

/-! ## List parsers -/

/-- One entry of the transient `items` list built by
`_parse_unordered_list`: a sibling item's text, or an already-rendered
nested list fragment. -/
inductive ULEntry where
  | item (content : Str)
  | nestedUl (frag : Str)
  | nestedOl (frag : Str)
deriving DecidableEq, Repr

/-- One entry of the `items` list built by `_parse_ordered_list`:
a sibling item's text with its assigned ordinal, or a nested fragment. -/
inductive OLEntry where
  | item (content : Str) (num : Nat)
  | nested (frag : Str)
deriving DecidableEq, Repr

/-- `<li style="...">• {render_inline(content)}</li>`. -/
def ulLi (content : Str) : Str :=
  S "<li style=\"" ++ liStyle ++ S "\">• " ++ renderInline content ++ S "</li>"

/-- `<li style="...">{num}. {render_inline(content)}</li>`. -/
def olLi (content : Str) (num : Nat) : Str :=
  S "<li style=\"" ++ liStyle ++ S "\">" ++ S (toString num) ++ S ". " ++
  renderInline content ++ S "</li>"

def ulOpen : Str := S "<ul style=\"" ++ ulStyle ++ S "\">"

def olOpen : Str := S "<ol style=\"" ++ olStyle ++ S "\">"

/-- The one-line lookahead of `_parse_unordered_list` on a blank line:
the next line is an unordered item at indentation at least the
baseline. -/
def nextUlAtIndent (indent : Nat) : List Str → Bool
  | l2 :: _ => ulStartB l2 && wsLen l2 ≥ indent
  | [] => false

/-- Item collection of `_collect_unordered_list`: consume contiguous
bullet lines at indentation ≥ `indent`. -/
def collectULItems (indent : Nat) : List Str → List Str × List Str
  | [] => ([], [])
  | l :: rest =>
    if pyStrip l = [] then ([], l :: rest)
    else
      match ulMatch l with
      | some (w, content) =>
        if w ≥ indent then
          let (is, r) := collectULItems indent rest
          (content :: is, r)
        else ([], l :: rest)
      | none => ([], l :: rest)

/-- `_collect_unordered_list`: the rendered nested fragment and the rest. -/
def collectUL (indent : Nat) (lines : List Str) : Str × List Str :=
  let (is, r) := collectULItems indent lines
  (joinNl (ulOpen :: is.map ulLi ++ [S "</ul>"]), r)

/-- Item collection of `_collect_ordered_list` (sequential 1-based
ordinals assigned by a counter, the literal numbers ignored). -/
def collectOLItems (indent : Nat) (k : Nat) : List Str → List (Str × Nat) × List Str
  | [] => ([], [])
  | l :: rest =>
    if pyStrip l = [] then ([], l :: rest)
    else
      match olMatch l with
      | some (w, content) =>
        if w ≥ indent then
          let (is, r) := collectOLItems indent (k + 1) rest
          ((content, k) :: is, r)
        else ([], l :: rest)
      | none => ([], l :: rest)

/-- `_collect_ordered_list`: the rendered nested fragment and the rest. -/
def collectOL (indent : Nat) (lines : List Str) : Str × List Str :=
  let (is, r) := collectOLItems indent 1 lines
  (joinNl (olOpen :: is.map (fun e => olLi e.1 e.2) ++ [S "</ol>"]), r)

/-- The scanning loop of `_parse_unordered_list` at a given indentation
baseline.  Fuel bounds the iteration count; each iteration consumes at
least one line, so fuel = number of lines is always sufficient. -/
def parseULGo : Nat → Nat → List Str → List ULEntry × List Str
  | 0, _, lines => ([], lines)
  | _ + 1, _, [] => ([], [])
  | fuel + 1, indent, l :: rest =>
    if pyStrip l = [] then
      if nextUlAtIndent indent rest = true then parseULGo fuel indent rest
      else ([], l :: rest)
    else
      match ulMatch l with
      | some (cur, content) =>
        if cur < indent then ([], l :: rest)
        else if cur > indent then
          if olStartB l then
            let (sub, r1) := collectOL cur (l :: rest)
            let (is, r) := parseULGo fuel indent r1
            (.nestedOl sub :: is, r)
          else
            let (sub, r1) := collectUL cur (l :: rest)
            let (is, r) := parseULGo fuel indent r1
            (.nestedUl sub :: is, r)
        else
          let (is, r) := parseULGo fuel indent rest
          (.item content :: is, r)
      | none =>
        if olStartB l then
          if wsLen l > indent then
            let (sub, r1) := collectOL (wsLen l) (l :: rest)
            let (is, r) := parseULGo fuel indent r1
            (.nestedOl sub :: is, r)
          else ([], l :: rest)
        else ([], l :: rest)

/-- The HTML part contributed by one entry in the render loop of
`_parse_unordered_list`: an item becomes an `<li>` element, a nested
fragment is appended verbatim. -/
def ulEntryHtml : ULEntry → Str
  | .item c => ulLi c
  | .nestedUl f => f
  | .nestedOl f => f

/-- Render the entry list of an unordered list: items become `<li>`
elements and nested fragments are appended as further parts of the same
`<ul>` container. -/
def ulRender (items : List ULEntry) : Str :=
  joinNl (ulOpen :: items.map ulEntryHtml ++ [S "</ul>"])

/-- `_parse_unordered_list` at indentation baseline `indent`. -/
def parseUL (indent : Nat) (lines : List Str) : Str × List Str :=
  let (items, r) := parseULGo lines.length indent lines
  (ulRender items, r)

/-- The scanning loop of `_parse_ordered_list` (`counter` is the next
ordinal; a blank line always ends an ordered list). -/
def parseOLGo : Nat → Nat → Nat → List Str → List OLEntry × List Str
  | 0, _, _, lines => ([], lines)
  | _ + 1, _, _, [] => ([], [])
  | fuel + 1, indent, k, l :: rest =>
    if pyStrip l = [] then ([], l :: rest)
    else
      match olMatch l with
      | some (cur, content) =>
        if cur < indent then ([], l :: rest)
        else if cur > indent then
          let (sub, r1) := collectOL cur (l :: rest)
          let (is, r) := parseOLGo fuel indent k r1
          (.nested sub :: is, r)
        else
          let (is, r) := parseOLGo fuel indent (k + 1) rest
          (.item content k :: is, r)
      | none => ([], l :: rest)

/-- The HTML part contributed by one entry in the render loop of
`_parse_ordered_list`. -/
def olEntryHtml : OLEntry → Str
  | .item c n => olLi c n
  | .nested f => f

/-- Render the entry list of an ordered list. -/
def olRender (items : List OLEntry) : Str :=
  joinNl (olOpen :: items.map olEntryHtml ++ [S "</ol>"])

/-- `_parse_ordered_list` at indentation baseline `indent`. -/
def parseOL (indent : Nat) (lines : List Str) : Str × List Str :=
  let (items, r) := parseOLGo lines.length indent 1 lines
  (olRender items, r)

/-! ## The block dispatcher (`_parse_blocks`) and the top-level render -/

/-- The root container of `render`. -/
def sectionWrap (body : Str) : Str :=
  S "<section class=\"container\" style=\"" ++ containerStyle ++ S "\">\n" ++
  body ++ S "\n</section>"

/-- One iteration of the `_parse_blocks` dispatcher loop on a nonempty
input `l :: rest`: choose the parser for `l` in the source's priority
order, and return the fragments it appends together with the unconsumed
lines.  `output` is the output emitted so far (consulted only by the
heading parser's first-`h1` test); `renderNested` is the recursive
document render used for nested blockquote content. -/
def parseStepWith (renderNested : List Str → List Str) (output : List Str)
    (l : Str) (rest : List Str) : List Str × List Str :=
  if pyStrip l = [] then ([], rest)
  else if headingStart l then (headingFrag output l, rest)
  else if isPre (S "```") (pyStrip l) then parseCodeBlock (l :: rest)
  else if isPre (S "$$") (pyStrip l) then parseMathBlock (l :: rest)
  else if isPre (S "|") (pyStrip l) then parseTable (l :: rest)
  else if isPre (S ">") (pyStrip l) then
    let (bs, r) := bqConsume (l :: rest)
    let innerHtml :=
      if bqHasNested bs then
        let body := joinNl (renderNested (splitNl (joinNl bs)))
        pyStrip (stripSectionTags (pyStrip (sectionWrap body)))
      else
        S "<p style=\"" ++ blockquotePStyle ++ S "\">" ++
        renderInline (pyStrip (joinNl bs)) ++ S "</p>"
    ([S "<blockquote style=\"" ++ blockquoteStyle ++ S "\">" ++ innerHtml ++
      S "</blockquote>"], r)
  else if ulStartB l then
    let (frag, r) := parseUL 0 (l :: rest)
    ([frag], r)
  else if olStartB l then
    let (frag, r) := parseOL 0 (l :: rest)
    ([frag], r)
  else if isHrLine l then ([S "<hr style=\"" ++ hrStyle ++ S "\">"], rest)
  else if isPre (S "<") (pyStrip l) && !isPre (S "<![") (pyStrip l) then
    let (hs, r) := htmlConsume false (l :: rest)
    ([joinNl hs], r)
  else parseParagraph (l :: rest)

/-- The `_parse_blocks` loop: repeatedly dispatch until the lines are
exhausted, accumulating the fragment sequence.  Each iteration consumes
at least one line, so fuel equal to the total character count (`muDoc`)
is always sufficient; a nested blockquote render always works on
strictly fewer characters. -/
def parseBlocksGo : Nat → List Str → List Str → List Str
  | 0, output, _ => output
  | fuel + 1, output, lines =>
    match lines with
    | [] => output
    | l :: rest =>
      let (frags, r) := parseStepWith (fun ls => parseBlocksGo fuel [] ls) output l rest
      parseBlocksGo fuel (output ++ frags) r

/-- One dispatcher iteration at a given fuel level (the specialization of
`parseStepWith` actually taken by `parseBlocksGo`). -/
def parseStep (fuel : Nat) (output : List Str) (l : Str) (rest : List Str) :
    List Str × List Str :=
  parseStepWith (fun ls => parseBlocksGo fuel [] ls) output l rest

/-- Character-count measure of a document: the fuel budget given to the
dispatcher (any bound this large terminates the loop, since every
iteration consumes at least one line and every nested blockquote render
works on strictly fewer characters). -/
def muDoc (lines : List Str) : Nat := (lines.map fun l => l.length + 1).sum

/-- The output fragment sequence for a document given as its line list. -/
def renderFragments (lines : List Str) : List Str :=
  parseBlocksGo (muDoc lines) [] lines

/-- The top-level `render`: split the text into lines, run the dispatcher,
join the fragments and wrap them in the root container. -/
def renderDoc (md : Str) : Str :=
  sectionWrap (joinNl (renderFragments (splitNl md)))

/-- String-level convenience wrapper for the top-level render. -/
def renderDocS (md : String) : String := ⟨renderDoc md.data⟩

/-! ## Theorems -/

/-- C1 (code evaluation at the failing input): on the document
`# A`, blank, `# B` the renderer emits two `h1` fragments and **both**
carry the `margin-top: 0 !important` override, although the source's own
comment (`第一个 h1 去除 margin-top`) and the specification say only the
document's first `h1` receives it.  The guard
`any('class="h1"' in o for o in self.output)` can never fire because
emitted headings carry a `style` attribute but no `class` attribute. -/
theorem c1_margin_override_on_second_h1 :
    renderFragments (splitNl (S "# A\n\n# B")) =
      [S "<h1 style=\"display: table; border-bottom: 2px solid #FA5151; margin: 2em auto 1em; font-weight: bold; text-align: center; padding: 0.5em 1em; font-size: 22.4px; text-shadow: 1px 1px 3px rgba(0, 0, 0, 0.05); color: #FA5151; background: transparent; margin-top: 0 !important;\">A</h1>",
       S "<h1 style=\"display: table; border-bottom: 2px solid #FA5151; margin: 2em auto 1em; font-weight: bold; text-align: center; padding: 0.5em 1em; font-size: 22.4px; text-shadow: 1px 1px 3px rgba(0, 0, 0, 0.05); color: #FA5151; background: transparent; margin-top: 0 !important;\">B</h1>"] ∧
    containsSub ((renderFragments (splitNl (S "# A\n\n# B"))).getD 1 [])
      (S " margin-top: 0 !important;") = true := by
  constructor
  · decide
  · decide

/-- C2 (counterexample): for the input `- a`, `  - b`, `- c` the renderer
emits one outer list fragment, but the nested list's markup is **not**
spliced inside the first item element: the first occurrence of `</li>`
(closing the first item) comes strictly before the (unique) occurrence of
the nested list's markup, so the nested `<ul>` is a sibling of the item
elements inside the outer container, refuting the claim as stated. -/
theorem c2_nested_list_not_inside_item :
    renderFragments [S "- a", S "  - b", S "- c"] =
      [S "<ul style=\"margin-left: 0; color: #3f3f3f; list-style: none; padding-left: 1.5em;\">\n<li style=\"display: block; color: #3f3f3f; margin: 0.5em 8px;\">• a</li>\n<ul style=\"margin-left: 0; color: #3f3f3f; list-style: none; padding-left: 1.5em;\">\n<li style=\"display: block; color: #3f3f3f; margin: 0.5em 8px;\">• b</li>\n</ul>\n<li style=\"display: block; color: #3f3f3f; margin: 0.5em 8px;\">• c</li>\n</ul>"] ∧
    countSub
      (S "<ul style=\"margin-left: 0; color: #3f3f3f; list-style: none; padding-left: 1.5em;\">\n<li style=\"display: block; color: #3f3f3f; margin: 0.5em 8px;\">• a</li>\n<ul style=\"margin-left: 0; color: #3f3f3f; list-style: none; padding-left: 1.5em;\">\n<li style=\"display: block; color: #3f3f3f; margin: 0.5em 8px;\">• b</li>\n</ul>\n<li style=\"display: block; color: #3f3f3f; margin: 0.5em 8px;\">• c</li>\n</ul>")
      (S "<ul style=\"margin-left: 0; color: #3f3f3f; list-style: none; padding-left: 1.5em;\">\n<li style=\"display: block; color: #3f3f3f; margin: 0.5em 8px;\">• b</li>\n</ul>") = 1 ∧
    idxOfSub
      (S "<ul style=\"margin-left: 0; color: #3f3f3f; list-style: none; padding-left: 1.5em;\">\n<li style=\"display: block; color: #3f3f3f; margin: 0.5em 8px;\">• a</li>\n<ul style=\"margin-left: 0; color: #3f3f3f; list-style: none; padding-left: 1.5em;\">\n<li style=\"display: block; color: #3f3f3f; margin: 0.5em 8px;\">• b</li>\n</ul>\n<li style=\"display: block; color: #3f3f3f; margin: 0.5em 8px;\">• c</li>\n</ul>")
      (S "</li>") <
    idxOfSub
      (S "<ul style=\"margin-left: 0; color: #3f3f3f; list-style: none; padding-left: 1.5em;\">\n<li style=\"display: block; color: #3f3f3f; margin: 0.5em 8px;\">• a</li>\n<ul style=\"margin-left: 0; color: #3f3f3f; list-style: none; padding-left: 1.5em;\">\n<li style=\"display: block; color: #3f3f3f; margin: 0.5em 8px;\">• b</li>\n</ul>\n<li style=\"display: block; color: #3f3f3f; margin: 0.5em 8px;\">• c</li>\n</ul>")
      (S "<ul style=\"margin-left: 0; color: #3f3f3f; list-style: none; padding-left: 1.5em;\">\n<li style=\"display: block; color: #3f3f3f; margin: 0.5em 8px;\">• b</li>\n</ul>") := by
  refine ⟨by decide, by decide, by decide⟩

/-- C3 (counterexample): the blockquote whose consumed content is empty
after stripping the `>` markers — the single input line `>` — does emit a
fragment, so the output sequence is not unchanged, refuting the claim. -/
theorem c3_empty_blockquote_emits_fragment :
    renderFragments (splitNl (S ">")) ≠ [] := by decide

/-- C7: for the input `> line1`, blank line, `> line2` the renderer emits
exactly one blockquote fragment containing both quoted lines in a single
paragraph: the blank line followed by another `>`-prefixed line is
consumed without terminating the quote. -/
theorem c7_blockquote_blank_line_single_fragment :
    renderFragments (splitNl (S "> line1\n\n> line2")) =
      [S "<blockquote style=\"border-left: 4px solid #FA5151; border-radius: 6px; background: #f7f7f7; margin-bottom: 1em; font-style: italic; padding: 1em 1em 1em 2em; color: rgba(0, 0, 0, 0.6); border-bottom: 0.2px solid rgba(0, 0, 0, 0.04); border-top: 0.2px solid rgba(0, 0, 0, 0.04); border-right: 0.2px solid rgba(0, 0, 0, 0.04);\"><p style=\"display: block; font-size: 1em; letter-spacing: 0.1em; color: #3f3f3f; margin: 0;\">line1\n\nline2</p></blockquote>"] := by
  decide

/-- C8 (counterexample): the inline pipeline is not idempotent on its own
output.  On `` ``a`` `` the first pass leaves two unmatched backticks
around the generated `<code>` element, and the second pass matches them
as a new code span, mutating the markup. -/
theorem c8_render_inline_not_idempotent :
    renderInline (renderInline (S "``a``")) ≠ renderInline (S "``a``") := by
  decide

/-- The ordinals carried by the sibling items of an ordered-list entry
list, in order of appearance. -/
def olOrds (items : List OLEntry) : List Nat :=
  items.filterMap fun e =>
    match e with
    | .item _ n => some n
    | .nested _ => none

/-- The counter of `_parse_ordered_list` hands out consecutive ordinals
starting from its initial value, whatever the source lines contain. -/
theorem olOrds_nil : olOrds [] = [] := rfl

theorem olOrds_item (c : Str) (n : Nat) (is : List OLEntry) :
    olOrds (.item c n :: is) = n :: olOrds is := rfl

theorem olOrds_nested (f : Str) (is : List OLEntry) :
    olOrds (.nested f :: is) = olOrds is := rfl

theorem parseOLGo_ords (fuel : Nat) :
    ∀ (lines : List Str) (indent k : Nat),
      olOrds (parseOLGo fuel indent k lines).1 =
        List.range' k (olOrds (parseOLGo fuel indent k lines).1).length := by
  induction fuel with
  | zero => intro lines indent k; simp [parseOLGo, olOrds]
  | succ fuel ih =>
    intro lines indent k
    match lines with
    | [] => simp [parseOLGo, olOrds]
    | l :: rest =>
      rw [parseOLGo]
      by_cases hb : pyStrip l = []
      · simp [hb, olOrds]
      · rw [if_neg hb]
        cases holm : olMatch l with
        | none => simp [olOrds]
        | some p =>
          obtain ⟨cur, content⟩ := p
          by_cases h1 : cur < indent
          · simp [h1, olOrds]
          · by_cases h2 : cur > indent
            · rcases hgo : parseOLGo fuel indent k (collectOL cur (l :: rest)).2 with ⟨is, r⟩
              have h := ih (collectOL cur (l :: rest)).2 indent k
              rw [hgo] at h
              simp only [h1, h2, hgo, if_false, if_true, if_neg, if_pos, olOrds_nested]
              exact h
            · rcases hgo : parseOLGo fuel indent (k + 1) rest with ⟨is, r⟩
              have h := ih rest indent (k + 1)
              rw [hgo] at h
              simp only [h1, h2, hgo, if_false, if_true, if_neg, if_pos, olOrds_item]
              rw [List.length_cons, List.range'_succ]
              exact congrArg (List.cons k) h

/-- C4: ordered lists number their sibling items with the consecutive
integers starting at the initial counter value (1 at the top level),
ignoring the literal numbers of the source lines; in particular the input
`1. a`, `5. b`, `2. c` renders with ordinals 1, 2, 3. -/
theorem c4_ordered_list_sequential_ordinals :
    (∀ (lines : List Str) (fuel indent : Nat),
        olOrds (parseOLGo fuel indent 1 lines).1 =
          List.range' 1 (olOrds (parseOLGo fuel indent 1 lines).1).length) ∧
    parseOL 0 [S "1. a", S "5. b", S "2. c"] =
      (S "<ol style=\"margin-left: 0; color: #3f3f3f; padding-left: 1.5em;\">\n<li style=\"display: block; color: #3f3f3f; margin: 0.5em 8px;\">1. a</li>\n<li style=\"display: block; color: #3f3f3f; margin: 0.5em 8px;\">2. b</li>\n<li style=\"display: block; color: #3f3f3f; margin: 0.5em 8px;\">3. c</li>\n</ol>", []) := by
  refine ⟨fun lines fuel indent => parseOLGo_ords fuel lines indent 1, by decide⟩

/-- A separator row is in particular consumed as a table line: its
stripped form starts with `|`. -/
theorem sep_starts_pipe (l : Str) (h : isTableSep l = true) :
    isPre (S "|") (pyStrip l) = true := by
  simp only [isTableSep, Bool.and_eq_true] at h
  exact h.1.1.1

/-- C5: a table consisting of a header row, a separator-matching divider
row and two data rows parses to exactly the header cells plus the two
data rows — the divider is consumed and discarded, never kept as a data
row — and the emitted fragment renders the first collected row in the
header section and exactly the two data rows in the body. -/
theorem c5_table_separator_discarded (h d r1 r2 : Str)
    (hh : isPre (S "|") (pyStrip h) = true) (hhs : isTableSep h = false)
    (hd : isTableSep d = true)
    (hr1 : isPre (S "|") (pyStrip r1) = true) (hr1s : isTableSep r1 = false)
    (hr2 : isPre (S "|") (pyStrip r2) = true) (hr2s : isTableSep r2 = false) :
    tableConsume [h, d, r1, r2] =
      ([tableCells h, tableCells r1, tableCells r2], []) ∧
    parseTable [h, d, r1, r2] =
      ([tableFrag [tableCells h, tableCells r1, tableCells r2]], []) ∧
    [tableCells h, tableCells r1, tableCells r2].take 1 = [tableCells h] ∧
    [tableCells h, tableCells r1, tableCells r2].drop 1 =
      [tableCells r1, tableCells r2] := by
  have hconsume : tableConsume [h, d, r1, r2] =
      ([tableCells h, tableCells r1, tableCells r2], []) := by
    simp [tableConsume, hh, hhs, hd, sep_starts_pipe d hd, hr1, hr1s, hr2, hr2s]
  refine ⟨hconsume, ?_, rfl, rfl⟩
  simp [parseTable, hconsume]

/-- C5 witness: the scenario table `|a|b|`, `|---|---|`, `|1|2|`,
`|3|4|` satisfies every hypothesis and parses to one header row and two
body rows. -/
theorem c5_witness :
    tableConsume [S "|a|b|", S "|---|---|", S "|1|2|", S "|3|4|"] =
      ([tableCells (S "|a|b|"), tableCells (S "|1|2|"), tableCells (S "|3|4|")], []) :=
  (c5_table_separator_discarded (S "|a|b|") (S "|---|---|") (S "|1|2|") (S "|3|4|")
    (by decide) (by decide) (by decide) (by decide) (by decide) (by decide)
    (by decide)).1

/-- With no closing fence among the content lines, the consumption loop
reaches the end of input and returns all content lines. -/
theorem codeConsume_to_end (cs : List Str) (h : ∀ l ∈ cs, pyStrip l ≠ S "```") :
    codeConsume cs = (cs, []) := by
  induction cs with
  | nil => rfl
  | cons l rest ih =>
    have hl : pyStrip l ≠ S "```" := h l (by simp)
    simp [codeConsume, hl, ih fun x hx => h x (by simp [hx])]

/-- With an explicit closing fence appended, the loop stops there and
returns the same content lines. -/
theorem codeConsume_closed (cs : List Str) (h : ∀ l ∈ cs, pyStrip l ≠ S "```") :
    codeConsume (cs ++ [S "```"]) = (cs, []) := by
  induction cs with
  | nil => simp [codeConsume, show pyStrip (S "```") = S "```" from by decide]
  | cons l rest ih =>
    have hl : pyStrip l ≠ S "```" := h l (by simp)
    simp [codeConsume, hl, ih fun x hx => h x (by simp [hx])]

/-- C6: an opening fence followed by content lines and no closing fence is
implicitly closed at end of input: the parser consumes everything and
emits exactly one code fragment holding all content lines (joined by
newlines, HTML-escaped, double spaces to `&nbsp;` pairs), identical to
the fragment produced when an explicit closing fence is present. -/
theorem c6_unterminated_fence_implicit_close (f : Str) (cs : List Str)
    (hf : isPre (S "```") (pyStrip f) = true)
    (hlang : fenceLang f ≠ S "mermaid")
    (hc : ∀ l ∈ cs, pyStrip l ≠ S "```") :
    parseCodeBlock (f :: cs) =
      ([codeFrag (fenceLang f) (nbspPairs (escapeL (joinNl cs)))], []) ∧
    parseCodeBlock (f :: cs) = parseCodeBlock (f :: (cs ++ [S "```"])) := by
  have h1 : parseCodeBlock (f :: cs) =
      ([codeFrag (fenceLang f) (nbspPairs (escapeL (joinNl cs)))], []) := by
    simp [parseCodeBlock, codeConsume_to_end cs hc, hlang]
  have h2 : parseCodeBlock (f :: (cs ++ [S "```"])) =
      ([codeFrag (fenceLang f) (nbspPairs (escapeL (joinNl cs)))], []) := by
    simp [parseCodeBlock, codeConsume_closed cs hc, hlang]
  exact ⟨h1, h1.trans h2.symm⟩

/-- C6 witness: the scenario fence `` ```py `` with two content lines and
no closing fence yields exactly one escaped code fragment. -/
theorem c6_witness :
    parseCodeBlock [S "```py", S "a < b", S "c & d"] =
      ([S "<pre style=\"color: #c9d1d9; background: #0d1117; font-size: 90%; overflow-x: auto; border-radius: 8px; line-height: 1.5; margin: 10px 8px; border: 1px solid rgba(0, 0, 0, 0.04); padding: 0 !important;\"><span style=\"display: flex; padding: 10px 14px 0;\"><svg xmlns=\"http://www.w3.org/2000/svg\" width=\"45px\" height=\"13px\" viewBox=\"0 0 450 130\"><ellipse cx=\"50\" cy=\"65\" rx=\"50\" ry=\"52\" stroke=\"rgb(220,60,54)\" stroke-width=\"2\" fill=\"rgb(237,108,96)\"></ellipse><ellipse cx=\"225\" cy=\"65\" rx=\"50\" ry=\"52\" stroke=\"rgb(218,151,33)\" stroke-width=\"2\" fill=\"rgb(247,193,81)\"></ellipse><ellipse cx=\"400\" cy=\"65\" rx=\"50\" ry=\"52\" stroke=\"rgb(27,161,37)\" stroke-width=\"2\" fill=\"rgb(100,200,86)\"></ellipse></svg></span><code class=\"language-py\" style=\"font-size: 90%; border-radius: 4px; display: -webkit-box; padding: 0.5em 1em 1em; overflow-x: auto; text-indent: 0; color: inherit; background: none; white-space: pre; margin: 0; font-family: \x27Fira Code\x27, Menlo, Operator Mono, Consolas, Monaco, monospace;\">a &lt; b\nc &amp; d</code></pre>"], []) :=
  ((c6_unterminated_fence_implicit_close (S "```py") [S "a < b", S "c & d"]
    (by decide) (by decide) (by decide)).1).trans (by decide)

/-- `split('\n')` never produces an empty list. -/
theorem splitNl_ne_nil (s : Str) : splitNl s ≠ [] := by
  induction s with
  | nil => simp [splitNl]
  | cons c rest ih =>
    rw [splitNl]
    split
    · simp
    · cases h : splitNl rest with
      | nil => exact absurd h ih
      | cons l ls => simp [h]

/-- A prefix of a prefix: `isPre (p ++ q) s` entails `isPre p s`. -/
theorem isPre_of_append (p q s : Str) (h : isPre (p ++ q) s = true) :
    isPre p s = true := by
  induction p generalizing s with
  | nil => rfl
  | cons a p ih =>
    cases s with
    | nil => simp [isPre] at h
    | cons b t =>
      simp only [List.cons_append, isPre, Bool.and_eq_true] at h ⊢
      exact ⟨h.1, ih t h.2⟩

/-- A line that matches none of the dispatcher's block-start patterns
(blank line, heading, fence, math, table, blockquote, unordered list,
ordered list, thematic break, raw HTML). -/
def plainLine (l : Str) : Bool :=
  !(pyStrip l).isEmpty && !headingStart l && !isPre (S "```") (pyStrip l) &&
  !isPre (S "$$") (pyStrip l) && !isPre (S "|") (pyStrip l) &&
  !isPre (S ">") (pyStrip l) && !ulStartB l && !olStartB l && !isHrLine l &&
  !(isPre (S "<") (pyStrip l) && !isPre (S "<![") (pyStrip l))

/-- A plain line is not blank and does not break a paragraph (note the
paragraph loop's raw-HTML test uses the `<!` guard: a line starting with
`<![` falls through the dispatcher yet is still consumed here). -/
theorem plainLine_not_break (l : Str) (h : plainLine l = true) :
    pyStrip l ≠ [] ∧ paraBreak l = false := by
  simp only [plainLine, Bool.and_eq_true, Bool.not_eq_true'] at h
  obtain ⟨⟨⟨⟨⟨⟨⟨⟨⟨h0, hhead⟩, hfence⟩, hmath⟩, hpipe⟩, hgt⟩, hul⟩, hol⟩, hhr⟩,
    hhtml⟩ := h
  have hblank : pyStrip l ≠ [] := fun hh => by rw [hh] at h0; simp at h0
  refine ⟨hblank, ?_⟩
  have hhtml2 : (isPre (S "<") (pyStrip l) && !isPre (S "<!") (pyStrip l)) = false := by
    cases hlt : isPre (S "<") (pyStrip l) with
    | false => simp
    | true =>
      have hbb : isPre (S "<![") (pyStrip l) = true := by
        rw [hlt] at hhtml; simpa using hhtml
      have hb2 : isPre (S "<!") (pyStrip l) = true :=
        isPre_of_append (S "<!") (S "[") _ hbb
      simp [hb2]
  simp [paraBreak, hhead, hfence, hmath, hgt, hpipe, hul, hol, hhr, hhtml2]

/-- On a run of plain lines the paragraph loop consumes everything. -/
theorem paraConsume_plain (L : List Str) (h : ∀ l ∈ L, plainLine l = true) :
    paraConsume L = (L, []) := by
  induction L with
  | nil => rfl
  | cons l rest ih =>
    obtain ⟨hblank, hbreak⟩ := plainLine_not_break l (h l (by simp))
    simp [paraConsume, hblank, hbreak, ih fun x hx => h x (by simp [hx])]

/-- The dispatcher loop on an exhausted input returns the output as-is. -/
theorem parseBlocksGo_nil (fuel : Nat) (output : List Str) :
    parseBlocksGo fuel output [] = output := by
  cases fuel <;> rfl

/-- C9: when no line of the document matches any block-start pattern of
the dispatcher, the rendered output sequence is exactly one paragraph
fragment wrapping the inline-transformed input, the consumed lines joined
by a single space. -/
theorem c9_paragraph_fallback (md : Str)
    (h : ∀ l ∈ splitNl md, plainLine l = true) :
    renderFragments (splitNl md) =
      [paraFrag (renderInline (joinSp (splitNl md)))] := by
  obtain ⟨l, rest, hlr⟩ : ∃ l rest, splitNl md = l :: rest := by
    cases hs : splitNl md with
    | nil => exact absurd hs (splitNl_ne_nil md)
    | cons l rest => exact ⟨l, rest, rfl⟩
  rw [hlr] at h ⊢
  obtain ⟨hblank, hbreak⟩ := plainLine_not_break l (h l (by simp))
  have hplain : ∀ x ∈ l :: rest, plainLine x = true := h
  have hmu : muDoc (l :: rest) = (l.length + muDoc rest) + 1 := by
    simp [muDoc]; ring
  have hpara : parseParagraph (l :: rest) =
      ([paraFrag (renderInline (joinSp (l :: rest)))], []) := by
    simp [parseParagraph, paraConsume_plain (l :: rest) hplain]
  have hstep : ∀ f out, parseStepWith f out l rest =
      ([paraFrag (renderInline (joinSp (l :: rest)))], []) := by
    intro f out
    have hp := hplain l (by simp)
    simp only [plainLine, Bool.and_eq_true, Bool.not_eq_true'] at hp
    obtain ⟨⟨⟨⟨⟨⟨⟨⟨⟨h0, h1⟩, h2⟩, h3⟩, h4⟩, h5⟩, h6⟩, h7⟩, h8⟩, h9⟩ := hp
    rw [parseStepWith, if_neg hblank, if_neg (by simp [h1]),
      if_neg (by simp [h2]), if_neg (by simp [h3]), if_neg (by simp [h4]),
      if_neg (by simp [h5]), if_neg (by simp [h6]), if_neg (by simp [h7]),
      if_neg (by simp [h8]), if_neg (by simp [h9]), hpara]
  rw [renderFragments, hmu, parseBlocksGo, hstep]
  simp [parseBlocksGo_nil]

/-- C9 witness: the two-line document `abc` / `def` has no block syntax
and renders as the single paragraph `abc def`. -/
theorem c9_witness :
    renderFragments (splitNl (S "abc\ndef")) =
      [S "<p style=\"margin: 1.5em 8px; letter-spacing: 0.1em; color: #3f3f3f;\">abc def</p>"] :=
  (c9_paragraph_fallback (S "abc\ndef") (by decide)).trans (by decide)

/-- An element not satisfying the predicate survives `dropWhile`. -/
theorem mem_dropWhile_of_not (p : Char → Bool) (x : Char) :
    ∀ l : Str, x ∈ l → p x = false → x ∈ l.dropWhile p := by
  intro l
  induction l with
  | nil => intro h; simp at h
  | cons y t ih =>
    intro hm hx
    by_cases hy : p y = true
    · rw [List.dropWhile_cons, if_pos hy]
      rcases List.mem_cons.mp hm with rfl | hmt
      · rw [hy] at hx; exact absurd hx (by simp)
      · exact ih hmt hx
    · rw [List.dropWhile_cons, if_neg hy]
      exact hm

/-- A list containing a non-whitespace character strips to a nonempty
text. -/
theorem pyStrip_ne_nil (l : Str) (x : Char) (hm : x ∈ l)
    (hx : pyWs x = false) : pyStrip l ≠ [] := by
  rw [pyStrip, ne_eq, List.reverse_eq_nil_iff, List.dropWhile_eq_nil_iff]
  intro hall
  have h1 : x ∈ l.dropWhile pyWs := mem_dropWhile_of_not pyWs x l hm hx
  have h2 : x ∈ (l.dropWhile pyWs).reverse := List.mem_reverse.mpr h1
  rw [hall x h2] at hx
  exact Bool.true_eq_false.mp hx

/-- An all-whitespace text strips to the empty text. -/
theorem pyStrip_nil_of_ws (l : Str) (h : ∀ x ∈ l, pyWs x = true) :
    pyStrip l = [] := by
  rw [pyStrip, List.dropWhile_eq_nil_iff.mpr h]
  rfl

/-- Joining all-whitespace lines with newlines yields all-whitespace
text. -/
theorem joinNl_ws (bs : List Str) (h : ∀ b ∈ bs, ∀ c ∈ b, pyWs c = true) :
    ∀ c ∈ joinNl bs, pyWs c = true := by
  induction bs with
  | nil => intro c hc; simp [joinNl] at hc
  | cons b bs ih =>
    intro c hc
    cases bs with
    | nil => exact h b (by simp) c hc
    | cons b2 bs2 =>
      rw [joinNl] at hc
      rcases List.mem_append.mp hc with hcb | hctail
      · exact h b (by simp) c hcb
      · rcases List.mem_cons.mp hctail with rfl | hcj
        · decide
        · exact ih (fun x hx => h x (by simp [hx])) c hcj

/-- Destructuring a successful single-character prefix test. -/
theorem isPre_cons (a : Char) (p s : Str) (h : isPre (a :: p) s = true) :
    ∃ t, s = a :: t ∧ isPre p t = true := by
  cases s with
  | nil => simp [isPre] at h
  | cons b t =>
    simp only [isPre, Bool.and_eq_true, decide_eq_true_eq] at h
    exact ⟨t, by rw [h.1], h.2⟩

/-- All-whitespace quote content contains no nested `>` marker. -/
theorem bqHasNested_false_of_ws (bs : List Str)
    (h : ∀ b ∈ bs, ∀ c ∈ b, pyWs c = true) : bqHasNested bs = false := by
  rw [bqHasNested, List.any_eq_false]
  intro b hb hp
  obtain ⟨t, rfl, _⟩ := isPre_cons '>' [] b hp
  exact absurd (h _ hb '>' (by simp)) (by decide)

/-- `dropWhile` over an all-satisfying prefix. -/
theorem dropWhile_append_all (p : Char → Bool) (xs ys : Str)
    (h : ∀ x ∈ xs, p x = true) :
    (xs ++ ys).dropWhile p = ys.dropWhile p := by
  induction xs with
  | nil => rfl
  | cons x t ih =>
    rw [List.cons_append, List.dropWhile_cons, if_pos (h x (by simp))]
    exact ih fun y hy => h y (by simp [hy])

/-- Stripping a line that is a `>` followed by whitespace yields `[">"]`
(so the dispatcher still recognises it as a blockquote line). -/
theorem pyStrip_gt_ws (t : Str) (h : ∀ c ∈ t, pyWs c = true) :
    pyStrip ('>' :: t) = ['>'] := by
  have h1 : ('>' :: t).dropWhile pyWs = '>' :: t := by
    rw [List.dropWhile_cons, if_neg (by decide)]
  rw [pyStrip, h1]
  have h2 : ('>' :: t).reverse = t.reverse ++ ['>'] := by simp
  rw [h2, dropWhile_append_all pyWs t.reverse ['>']
    (fun x hx => h x (List.mem_reverse.mp hx))]
  rfl

/-- The empty-blockquote fragment: a blockquote containing one empty
paragraph. -/
def emptyBqFrag : Str :=
  S "<blockquote style=\"" ++ blockquoteStyle ++ S "\"><p style=\"" ++
  blockquotePStyle ++ S "\"></p></blockquote>"

/-- C3 (amended): a blockquote whose consumed content is empty after
stripping the `>` markers does emit a fragment — always exactly one
blockquote containing an empty paragraph — and leaves the lines after the
consumed run untouched.  (The source appends the blockquote fragment
unconditionally; only tables and math blocks are suppressed when
empty.) -/
theorem c3_amended_empty_blockquote_fragment (t : Str) (rest : List Str)
    (fuel : Nat) (output : List Str)
    (ht : ∀ c ∈ t, pyWs c = true)
    (hws : ∀ b ∈ (bqConsume (('>' :: t) :: rest)).1, ∀ c ∈ b, pyWs c = true) :
    parseStep fuel output ('>' :: t) rest =
      ([emptyBqFrag], (bqConsume (('>' :: t) :: rest)).2) := by
  have hstrip : pyStrip ('>' :: t) = ['>'] := pyStrip_gt_ws t ht
  have hnested : bqHasNested (bqConsume (('>' :: t) :: rest)).1 = false :=
    bqHasNested_false_of_ws _ hws
  have hjoin : pyStrip (joinNl (bqConsume (('>' :: t) :: rest)).1) = [] :=
    pyStrip_nil_of_ws _ (joinNl_ws _ hws)
  rw [parseStep, parseStepWith, if_neg (by rw [hstrip]; simp),
    if_neg (by simp [headingStart, List.takeWhile]),
    if_neg (by rw [hstrip]; decide), if_neg (by rw [hstrip]; decide),
    if_neg (by rw [hstrip]; decide), if_pos (by rw [hstrip]; decide)]
  rcases hbq : bqConsume (('>' :: t) :: rest) with ⟨bs, r⟩
  rw [hbq] at hnested hjoin
  simp only [hnested, Bool.false_eq_true, if_false, hjoin]
  rw [show renderInline [] = [] from rfl]
  simp only [Prod.mk.injEq, and_true, List.cons.injEq]
  decide

/-- C3 witness: the single line `>` emits exactly the empty-blockquote
fragment. -/
theorem c3_witness :
    parseStep 0 [] (S ">") [] = ([emptyBqFrag], []) := by
  have h := c3_amended_empty_blockquote_fragment [] [] 0 []
    (by decide) (by decide)
  simpa using h

/-- The characters that can trigger an inline transform: code span,
image, link, inline math, bold/italic, strikethrough markers. -/
def inlineMarker (c : Char) : Bool :=
  c = '`' || c = '!' || c = '[' || c = '$' || c = '*' || c = '_' || c = '~'

theorem subCodeGo_id (fuel : Nat) : ∀ l : Str, '`' ∉ l → subCodeGo fuel l = l := by
  induction fuel with
  | zero => intro l _; rfl
  | succ fuel ih =>
    intro l h
    cases l with
    | nil => rfl
    | cons c rest =>
      have hne : ¬(c = '`') := fun e => h (e ▸ List.mem_cons_self c rest)
      rw [subCodeGo.eq_def]
      simp only [if_neg hne]
      rw [ih rest fun hm => h (List.mem_cons_of_mem c hm)]

theorem subImageGo_id (fuel : Nat) : ∀ l : Str, '!' ∉ l → subImageGo fuel l = l := by
  induction fuel with
  | zero => intro l _; rfl
  | succ fuel ih =>
    intro l h
    cases l with
    | nil => rfl
    | cons c rest =>
      have hne : ¬(c = '!') := fun e => h (e ▸ List.mem_cons_self c rest)
      rw [subImageGo.eq_def]
      simp only [if_neg hne]
      rw [ih rest fun hm => h (List.mem_cons_of_mem c hm)]

theorem subLinkGo_id (fuel : Nat) : ∀ l : Str, '[' ∉ l → subLinkGo fuel l = l := by
  induction fuel with
  | zero => intro l _; rfl
  | succ fuel ih =>
    intro l h
    cases l with
    | nil => rfl
    | cons c rest =>
      have hne : ¬(c = '[') := fun e => h (e ▸ List.mem_cons_self c rest)
      rw [subLinkGo.eq_def]
      simp only [if_neg hne]
      rw [ih rest fun hm => h (List.mem_cons_of_mem c hm)]

theorem subMathGo_id (fuel : Nat) :
    ∀ (prev : Option Char) (l : Str), '$' ∉ l → subMathGo fuel prev l = l := by
  induction fuel with
  | zero => intro prev l _; rfl
  | succ fuel ih =>
    intro prev l h
    cases l with
    | nil => rfl
    | cons c rest =>
      have hne : ¬(c = '$' ∧ prev ≠ some '$') :=
        fun e => h (e.1 ▸ List.mem_cons_self c rest)
      rw [subMathGo.eq_def]
      simp only [if_neg hne]
      rw [ih (some c) rest fun hm => h (List.mem_cons_of_mem c hm)]

theorem subTriGo_id (fuel : Nat) :
    ∀ l : Str, '*' ∉ l → '_' ∉ l → subTriGo fuel l = l := by
  induction fuel with
  | zero => intro l _ _; rfl
  | succ fuel ih =>
    intro l h1 h2
    cases l with
    | nil => rfl
    | cons c rest =>
      have hne1 : ¬(c = '*' ∧ isPre (S "**") rest = true) :=
        fun e => h1 (e.1 ▸ List.mem_cons_self c rest)
      have hne2 : ¬(c = '_' ∧ isPre (S "__") rest = true) :=
        fun e => h2 (e.1 ▸ List.mem_cons_self c rest)
      rw [subTriGo.eq_def]
      simp only [if_neg hne1, if_neg hne2]
      rw [ih rest (fun hm => h1 (List.mem_cons_of_mem c hm))
        (fun hm => h2 (List.mem_cons_of_mem c hm))]

theorem subBoldGo_id (fuel : Nat) :
    ∀ l : Str, '*' ∉ l → '_' ∉ l → subBoldGo fuel l = l := by
  induction fuel with
  | zero => intro l _ _; rfl
  | succ fuel ih =>
    intro l h1 h2
    cases l with
    | nil => rfl
    | cons c rest =>
      have hne1 : ¬(c = '*' ∧ isPre (S "*") rest = true) :=
        fun e => h1 (e.1 ▸ List.mem_cons_self c rest)
      have hne2 : ¬(c = '_' ∧ isPre (S "_") rest = true) :=
        fun e => h2 (e.1 ▸ List.mem_cons_self c rest)
      rw [subBoldGo.eq_def]
      simp only [if_neg hne1, if_neg hne2]
      rw [ih rest (fun hm => h1 (List.mem_cons_of_mem c hm))
        (fun hm => h2 (List.mem_cons_of_mem c hm))]

theorem subItalGo_id (fuel : Nat) :
    ∀ (prev : Option Char) (l : Str), '*' ∉ l → '_' ∉ l →
      subItalGo fuel prev l = l := by
  induction fuel with
  | zero => intro prev l _ _; rfl
  | succ fuel ih =>
    intro prev l h1 h2
    cases l with
    | nil => rfl
    | cons c rest =>
      have hne1 : ¬(c = '*' ∧ prev ≠ some '*') :=
        fun e => h1 (e.1 ▸ List.mem_cons_self c rest)
      have hne2 : ¬(c = '_' ∧ prev ≠ some '_') :=
        fun e => h2 (e.1 ▸ List.mem_cons_self c rest)
      rw [subItalGo.eq_def]
      simp only [if_neg hne1, if_neg hne2]
      rw [ih (some c) rest (fun hm => h1 (List.mem_cons_of_mem c hm))
        (fun hm => h2 (List.mem_cons_of_mem c hm))]

theorem subDelGo_id (fuel : Nat) : ∀ l : Str, '~' ∉ l → subDelGo fuel l = l := by
  induction fuel with
  | zero => intro l _; rfl
  | succ fuel ih =>
    intro l h
    cases l with
    | nil => rfl
    | cons c rest =>
      have hne : ¬(c = '~' ∧ isPre (S "~") rest = true) :=
        fun e => h (e.1 ▸ List.mem_cons_self c rest)
      rw [subDelGo.eq_def]
      simp only [if_neg hne]
      rw [ih rest fun hm => h (List.mem_cons_of_mem c hm)]

/-- C8 (amended): the inline pipeline leaves marker-free text — in
particular already-escaped HTML entities — unchanged, and is therefore
idempotent on such text.  (It is not idempotent in general, see the
counterexample.) -/
theorem c8_amended_idempotent_on_marker_free (t : Str)
    (h : ∀ x ∈ t, inlineMarker x = false) :
    renderInline t = t ∧ renderInline (renderInline t) = renderInline t := by
  have hm : ∀ m : Char, inlineMarker m = true → m ∉ t := by
    intro m hmk hmem
    rw [h m hmem] at hmk
    exact Bool.false_ne_true hmk
  have hid : renderInline t = t := by
    rw [renderInline, subCode, subCodeGo_id _ t (hm '`' (by decide)),
      subImage, subImageGo_id _ t (hm '!' (by decide)),
      subLink, subLinkGo_id _ t (hm '[' (by decide)),
      subMath, subMathGo_id _ none t (hm '$' (by decide)),
      subTri, subTriGo_id _ t (hm '*' (by decide)) (hm '_' (by decide)),
      subBold, subBoldGo_id _ t (hm '*' (by decide)) (hm '_' (by decide)),
      subItal, subItalGo_id _ none t (hm '*' (by decide)) (hm '_' (by decide)),
      subDel, subDelGo_id _ t (hm '~' (by decide))]
  exact ⟨hid, by rw [hid, hid]⟩

/-- C8 witness: escaped-entity text contains no marker characters and is
untouched by the pipeline, twice over. -/
theorem c8_witness :
    renderInline (S "&amp; &lt;b&gt; ok.") = S "&amp; &lt;b&gt; ok." ∧
    renderInline (renderInline (S "&amp; &lt;b&gt; ok.")) =
      renderInline (S "&amp; &lt;b&gt; ok.") :=
  c8_amended_idempotent_on_marker_free (S "&amp; &lt;b&gt; ok.") (by decide)

/-! ## Termination of the dispatcher loop (C10) -/

theorem codeConsume_len : ∀ L : List Str, (codeConsume L).2.length ≤ L.length := by
  intro L
  induction L with
  | nil => simp [codeConsume]
  | cons l rest ih =>
    rw [codeConsume]
    split
    · simp
    · rcases h : codeConsume rest with ⟨cs, r⟩
      rw [h] at ih
      simpa using Nat.le_succ_of_le ih

theorem mathConsume_len : ∀ L : List Str, (mathConsume L).2.length ≤ L.length := by
  intro L
  induction L with
  | nil => simp [mathConsume]
  | cons l rest ih =>
    rw [mathConsume]
    split
    · simp
    · rcases h : mathConsume rest with ⟨cs, r⟩
      rw [h] at ih
      simpa using Nat.le_succ_of_le ih

theorem tableConsume_len : ∀ L : List Str, (tableConsume L).2.length ≤ L.length := by
  intro L
  induction L with
  | nil => simp [tableConsume]
  | cons l rest ih =>
    rw [tableConsume]
    split
    · split
      · exact Nat.le_succ_of_le ih
      · rcases h : tableConsume rest with ⟨rows, r⟩
        rw [h] at ih
        simpa using Nat.le_succ_of_le ih
    · simp

theorem bqConsume_len : ∀ L : List Str, (bqConsume L).2.length ≤ L.length := by
  intro L
  induction L with
  | nil => simp [bqConsume]
  | cons l rest ih =>
    rw [bqConsume]
    split
    · rcases h : bqConsume rest with ⟨bs, r⟩
      rw [h] at ih
      simpa using Nat.le_succ_of_le ih
    · split
      · rcases h : bqConsume rest with ⟨bs, r⟩
        rw [h] at ih
        simpa using Nat.le_succ_of_le ih
      · simp

theorem htmlConsume_len : ∀ (L : List Str) (b : Bool),
    (htmlConsume b L).2.length ≤ L.length := by
  intro L
  induction L with
  | nil => intro b; simp [htmlConsume]
  | cons l rest ih =>
    intro b
    rw [htmlConsume]
    split
    · split
      · rcases h : htmlConsume true rest with ⟨hs, r⟩
        have := ih true
        rw [h] at this
        simpa using Nat.le_succ_of_le this
      · simp
    · split
      · rcases h : htmlConsume true rest with ⟨hs, r⟩
        have := ih true
        rw [h] at this
        simpa using Nat.le_succ_of_le this
      · simp

theorem paraConsume_len : ∀ L : List Str, (paraConsume L).2.length ≤ L.length := by
  intro L
  induction L with
  | nil => simp [paraConsume]
  | cons l rest ih =>
    rw [paraConsume]
    split
    · simp
    · split
      · simp
      · rcases h : paraConsume rest with ⟨ps, r⟩
        rw [h] at ih
        simpa using Nat.le_succ_of_le ih

theorem collectULItems_len (indent : Nat) :
    ∀ L : List Str, (collectULItems indent L).2.length ≤ L.length := by
  intro L
  induction L with
  | nil => simp [collectULItems]
  | cons l rest ih =>
    rw [collectULItems]
    split
    · simp
    · split
      · split
        · rcases h : collectULItems indent rest with ⟨is, r⟩
          rw [h] at ih
          simpa using Nat.le_succ_of_le ih
        · simp
      · simp

theorem collectOLItems_len (indent : Nat) :
    ∀ (L : List Str) (k : Nat), (collectOLItems indent k L).2.length ≤ L.length := by
  intro L
  induction L with
  | nil => intro k; simp [collectOLItems]
  | cons l rest ih =>
    intro k
    rw [collectOLItems]
    split
    · simp
    · split
      · split
        · rcases h : collectOLItems indent (k + 1) rest with ⟨is, r⟩
          have := ih (k + 1)
          rw [h] at this
          simpa using Nat.le_succ_of_le this
        · simp
      · simp

theorem collectUL_len (indent : Nat) (L : List Str) :
    (collectUL indent L).2.length ≤ L.length := by
  rw [collectUL]
  rcases h : collectULItems indent L with ⟨is, r⟩
  have := collectULItems_len indent L
  rw [h] at this
  simpa using this

theorem collectOL_len (indent : Nat) (L : List Str) :
    (collectOL indent L).2.length ≤ L.length := by
  rw [collectOL]
  rcases h : collectOLItems indent 1 L with ⟨is, r⟩
  have := collectOLItems_len indent L 1
  rw [h] at this
  simpa using this

theorem parseULGo_len (fuel : Nat) :
    ∀ (L : List Str) (indent : Nat), (parseULGo fuel indent L).2.length ≤ L.length := by
  induction fuel with
  | zero => intro L indent; simp [parseULGo]
  | succ fuel ih =>
    intro L indent
    match L with
    | [] => simp [parseULGo]
    | l :: rest =>
      rw [parseULGo]
      split
      · split
        · exact Nat.le_succ_of_le (ih rest indent)
        · simp
      · split
        · rename_i cur content heq
          split
          · simp
          · split
            · split
              · rcases hc : collectOL cur (l :: rest) with ⟨sub, r1⟩
                rcases hgo : parseULGo fuel indent r1 with ⟨is, r⟩
                have h1 := collectOL_len cur (l :: rest)
                rw [hc] at h1
                have h2 := ih r1 indent
                rw [hgo] at h2
                simpa [hc, hgo] using le_trans h2 h1
              · rcases hc : collectUL cur (l :: rest) with ⟨sub, r1⟩
                rcases hgo : parseULGo fuel indent r1 with ⟨is, r⟩
                have h1 := collectUL_len cur (l :: rest)
                rw [hc] at h1
                have h2 := ih r1 indent
                rw [hgo] at h2
                simpa [hc, hgo] using le_trans h2 h1
            · rcases hgo : parseULGo fuel indent rest with ⟨is, r⟩
              have h2 := ih rest indent
              rw [hgo] at h2
              simpa using Nat.le_succ_of_le h2
        · split
          · split
            · rcases hc : collectOL (wsLen l) (l :: rest) with ⟨sub, r1⟩
              rcases hgo : parseULGo fuel indent r1 with ⟨is, r⟩
              have h1 := collectOL_len (wsLen l) (l :: rest)
              rw [hc] at h1
              have h2 := ih r1 indent
              rw [hgo] at h2
              simpa [hc, hgo] using le_trans h2 h1
            · simp
          · simp

theorem parseOLGo_len (fuel : Nat) :
    ∀ (L : List Str) (indent k : Nat), (parseOLGo fuel indent k L).2.length ≤ L.length := by
  induction fuel with
  | zero => intro L indent k; simp [parseOLGo]
  | succ fuel ih =>
    intro L indent k
    match L with
    | [] => simp [parseOLGo]
    | l :: rest =>
      rw [parseOLGo]
      split
      · simp
      · split
        · rename_i cur content heq
          split
          · simp
          · split
            · rcases hc : collectOL cur (l :: rest) with ⟨sub, r1⟩
              rcases hgo : parseOLGo fuel indent k r1 with ⟨is, r⟩
              have h1 := collectOL_len cur (l :: rest)
              rw [hc] at h1
              have h2 := ih r1 indent k
              rw [hgo] at h2
              simpa [hc, hgo] using le_trans h2 h1
            · rcases hgo : parseOLGo fuel indent (k + 1) rest with ⟨is, r⟩
              have h2 := ih rest indent (k + 1)
              rw [hgo] at h2
              simpa using Nat.le_succ_of_le h2
        · simp

/-- The head of a `dropWhile` result fails the predicate. -/
theorem dropWhile_head_not (p : Char → Bool) :
    ∀ (l : Str) (m : Char) (t : Str), l.dropWhile p = m :: t → p m = false := by
  intro l
  induction l with
  | nil => intro m t h; simp at h
  | cons y ys ih =>
    intro m t h
    rw [List.dropWhile_cons] at h
    split at h
    · exact ih m t h
    · cases h
      rename_i hy
      simpa using hy

/-- A text whose leading-whitespace drop is nonempty strips to a nonempty
text. -/
theorem strip_ne_of_dropWhile (l : Str) (m : Char) (t : Str)
    (h : l.dropWhile pyWs = m :: t) : pyStrip l ≠ [] := by
  have hmem : m ∈ l := (List.dropWhile_sublist (p := pyWs) (l := l)).mem
    (h ▸ List.mem_cons_self m t)
  exact pyStrip_ne_nil l m hmem (dropWhile_head_not pyWs l m t h)

/-- Unpacking a successful unordered dispatch test: the line is not
blank, the full item matcher succeeds, and the line is not an ordered
item. -/
theorem ulStartB_elim (l : Str) (h : ulStartB l = true) :
    pyStrip l ≠ [] ∧ (∃ w cnt, ulMatch l = some (w, cnt)) ∧ olStartB l = false := by
  unfold ulStartB at h
  rcases hd : l.dropWhile pyWs with _ | ⟨m, mrest⟩
  · rw [hd] at h; simp at h
  · rcases mrest with _ | ⟨c, t⟩
    · rw [hd] at h; simp at h
    · rw [hd] at h
      simp only [Bool.and_eq_true, Bool.or_eq_true, decide_eq_true_eq] at h
      obtain ⟨hm, hc⟩ := h
      have hstrip : pyStrip l ≠ [] := strip_ne_of_dropWhile l m (c :: t) hd
      refine ⟨hstrip, ⟨wsLen l, (c :: t).dropWhile pyWs, ?_⟩, ?_⟩
      · unfold ulMatch
        rw [hd]
        simp [hm, hc]
      · have hdig : m.isDigit = false := by
          rcases hm with (h1 | h1) | h1 <;> (subst h1; decide)
        unfold olStartB
        rw [hd]
        simp [List.takeWhile_cons, hdig]

/-- Unpacking a successful ordered dispatch test. -/
theorem olStartB_elim (l : Str) (h : olStartB l = true) :
    pyStrip l ≠ [] ∧ ∃ w cnt, olMatch l = some (w, cnt) := by
  unfold olStartB at h
  rcases hd : l.dropWhile pyWs with _ | ⟨d, drest⟩
  · rw [hd] at h; simp at h
  · rw [hd] at h
    simp only [Bool.and_eq_true, decide_eq_true_eq] at h
    obtain ⟨hds, hdot⟩ := h
    have hstrip : pyStrip l ≠ [] := strip_ne_of_dropWhile l d drest hd
    rcases hdr : (d :: drest).drop ((d :: drest).takeWhile Char.isDigit).length
      with _ | ⟨c1, r1⟩
    · rw [hdr] at hdot; simp at hdot
    · rw [hdr] at hdot
      by_cases hc1 : c1 = '.'
      · subst hc1
        rcases r1 with _ | ⟨c2, t2⟩
        · simp at hdot
        · simp only at hdot
          refine ⟨hstrip, wsLen l, (c2 :: t2).dropWhile pyWs, ?_⟩
          unfold olMatch
          rw [hd]
          simp only [if_neg hds, hdr]
          simp [hdot]
      · exfalso
        rcases r1 with _ | ⟨c2, t2⟩ <;> simp [hc1] at hdot

/-- The dispatcher's fall-through conditions imply the paragraph loop
does not break on the line either. -/
theorem paraBreak_false_of_neg (l : Str)
    (h2 : ¬headingStart l = true) (h3 : ¬isPre (S "```") (pyStrip l) = true)
    (h4 : ¬isPre (S "$$") (pyStrip l) = true)
    (h5 : ¬isPre (S "|") (pyStrip l) = true)
    (h6 : ¬isPre (S ">") (pyStrip l) = true) (h7 : ¬ulStartB l = true)
    (h8 : ¬olStartB l = true) (h9 : ¬isHrLine l = true)
    (h10 : ¬(isPre (S "<") (pyStrip l) && !isPre (S "<![") (pyStrip l)) = true) :
    paraBreak l = false := by
  simp only [Bool.not_eq_true] at h2 h3 h4 h5 h6 h7 h8 h9
  have hhtml2 : (isPre (S "<") (pyStrip l) && !isPre (S "<!") (pyStrip l)) = false := by
    cases hlt : isPre (S "<") (pyStrip l) with
    | false => simp
    | true =>
      have hbb : isPre (S "<![") (pyStrip l) = true := by
        cases hbb2 : isPre (S "<![") (pyStrip l) with
        | true => rfl
        | false => exact absurd (by rw [hlt, hbb2]; rfl) h10
      have hb2 := isPre_of_append (S "<!") (S "[") _ hbb
      simp [hb2]
  simp [paraBreak, h2, h3, h4, h5, h6, h7, h8, h9, hhtml2]

theorem parseCodeBlock_rest (l : Str) (rest : List Str) :
    (parseCodeBlock (l :: rest)).2 = (codeConsume rest).2 := by
  rw [parseCodeBlock]
  rcases h : codeConsume rest with ⟨cs, r⟩
  simp only [h]
  split <;> rfl

theorem parseMathBlock_rest (l : Str) (rest : List Str) :
    (parseMathBlock (l :: rest)).2 = (mathConsume rest).2 := by
  rw [parseMathBlock]
  rcases h : mathConsume rest with ⟨cs, r⟩
  simp only [h]
  split <;> rfl

theorem parseTable_rest (L : List Str) :
    (parseTable L).2 = (tableConsume L).2 := by
  rw [parseTable]
  rcases h : tableConsume L with ⟨rows, r⟩
  simp only [h]
  split <;> rfl

theorem parseParagraph_rest (L : List Str) :
    (parseParagraph L).2 = (paraConsume L).2 := by
  rw [parseParagraph]
  rcases h : paraConsume L with ⟨ps, r⟩
  simp only [h]
  split <;> rfl

theorem parseUL_rest (indent : Nat) (L : List Str) :
    (parseUL indent L).2 = (parseULGo L.length indent L).2 := rfl

theorem parseOL_rest (indent : Nat) (L : List Str) :
    (parseOL indent L).2 = (parseOLGo L.length indent 1 L).2 := rfl

theorem tableConsume_first (l : Str) (rest : List Str)
    (h : isPre (S "|") (pyStrip l) = true) :
    (tableConsume (l :: rest)).2.length ≤ rest.length := by
  rw [tableConsume, if_pos h]
  split
  · exact tableConsume_len rest
  · rcases ht : tableConsume rest with ⟨rows, r⟩
    have := tableConsume_len rest
    rw [ht] at this
    simpa using this

theorem bqConsume_first (l : Str) (rest : List Str)
    (h : isPre (S ">") (pyStrip l) = true) :
    (bqConsume (l :: rest)).2.length ≤ rest.length := by
  rw [bqConsume, if_pos h]
  rcases hb : bqConsume rest with ⟨bs, r⟩
  have := bqConsume_len rest
  rw [hb] at this
  simpa using this

theorem htmlConsume_first (l : Str) (rest : List Str)
    (h : isPre (S "<") (pyStrip l) = true) :
    (htmlConsume false (l :: rest)).2.length ≤ rest.length := by
  rw [htmlConsume, if_neg (by simp), if_pos (by simp [h])]
  rcases hh : htmlConsume true rest with ⟨hs, r⟩
  have := htmlConsume_len rest true
  rw [hh] at this
  simpa using this

theorem paraConsume_first (l : Str) (rest : List Str)
    (hb : ¬pyStrip l = []) (hbr : paraBreak l = false) :
    (paraConsume (l :: rest)).2.length ≤ rest.length := by
  rw [paraConsume, if_neg hb, if_neg (by simp [hbr])]
  rcases hp : paraConsume rest with ⟨ps, r⟩
  have := paraConsume_len rest
  rw [hp] at this
  simpa using this

theorem collectULItems_first (l : Str) (rest : List Str) (w : Nat) (cnt : Str)
    (hm : ulMatch l = some (w, cnt)) (hs : ¬pyStrip l = []) :
    (collectULItems w (l :: rest)).2.length ≤ rest.length := by
  rw [collectULItems, if_neg hs]
  simp only [hm, ge_iff_le, le_refl, if_true]
  rcases hr : collectULItems w rest with ⟨is2, r2⟩
  have := collectULItems_len w rest
  rw [hr] at this
  simpa using this

theorem collectUL_first (l : Str) (rest : List Str) (w : Nat) (cnt : Str)
    (hm : ulMatch l = some (w, cnt)) (hs : ¬pyStrip l = []) :
    (collectUL w (l :: rest)).2.length ≤ rest.length := by
  rw [collectUL]
  rcases hi : collectULItems w (l :: rest) with ⟨is, r⟩
  have := collectULItems_first l rest w cnt hm hs
  rw [hi] at this
  simpa using this

theorem collectOLItems_first (l : Str) (rest : List Str) (w : Nat) (cnt : Str)
    (k : Nat) (hm : olMatch l = some (w, cnt)) (hs : ¬pyStrip l = []) :
    (collectOLItems w k (l :: rest)).2.length ≤ rest.length := by
  rw [collectOLItems, if_neg hs]
  simp only [hm, ge_iff_le, le_refl, if_true]
  rcases hr : collectOLItems w (k + 1) rest with ⟨is2, r2⟩
  have := collectOLItems_len w rest (k + 1)
  rw [hr] at this
  simpa using this

theorem collectOL_first (l : Str) (rest : List Str) (w : Nat) (cnt : Str)
    (hm : olMatch l = some (w, cnt)) (hs : ¬pyStrip l = []) :
    (collectOL w (l :: rest)).2.length ≤ rest.length := by
  rw [collectOL]
  rcases hi : collectOLItems w 1 (l :: rest) with ⟨is, r⟩
  have := collectOLItems_first l rest w cnt 1 hm hs
  rw [hi] at this
  simpa using this

/-! ## The character measure of the blockquote recursion -/

theorem muDoc_cons (x : Str) (xs : List Str) :
    muDoc (x :: xs) = x.length + 1 + muDoc xs := by
  simp [muDoc]

theorem muDoc_splitNl (s : Str) : muDoc (splitNl s) = s.length + 1 := by
  induction s with
  | nil => rfl
  | cons c rest ih =>
    rw [splitNl]
    split
    · rw [muDoc_cons]
      simp only [List.length_nil, List.length_cons]
      omega
    · rcases hs : splitNl rest with _ | ⟨l, ls⟩
      · exact absurd hs (splitNl_ne_nil rest)
      · rw [hs] at ih
        rw [muDoc_cons] at ih
        rw [muDoc_cons]
        simp at ih ⊢
        omega

theorem joinNl_len : ∀ bs : List Str, bs ≠ [] → (joinNl bs).length + 1 = muDoc bs := by
  intro bs
  induction bs with
  | nil => intro h; exact absurd rfl h
  | cons b bs ih =>
    intro _
    cases bs with
    | nil => simp [joinNl, muDoc]
    | cons b2 bs2 =>
      rw [joinNl]
      have := ih (by simp)
      rw [muDoc_cons]
      simp only [List.length_append, List.length_cons]
      omega

theorem dropOneWs_len (r : Str) : (dropOneWs r).length ≤ r.length := by
  cases r with
  | nil => simp [dropOneWs]
  | cons c t =>
    rw [dropOneWs]
    split <;> simp

theorem stripGtMarker_len (l : Str) : (stripGtMarker l).length ≤ l.length := by
  cases l with
  | nil => simp [stripGtMarker]
  | cons c t =>
    rw [stripGtMarker]
    split
    · exact le_trans (dropOneWs_len t) (by simp)
    · simp

/-- A stripped blockquote line that still starts with `>` is strictly
shorter than its source line (the anchored marker was removed). -/
theorem stripGtMarker_lt (l : Str)
    (h : isPre (S ">") (stripGtMarker l) = true) :
    (stripGtMarker l).length < l.length := by
  cases l with
  | nil => simp [stripGtMarker, isPre, S] at h
  | cons c t =>
    rw [stripGtMarker] at h ⊢
    by_cases hc : c = '>'
    · rw [if_pos hc] at h ⊢
      exact Nat.lt_succ_of_le (dropOneWs_len t)
    · rw [if_neg hc] at h
      obtain ⟨t2, he, _⟩ := isPre_cons '>' [] (c :: t) h
      exact absurd (List.cons.inj he).1 hc

theorem bqHasNested_cons (x : Str) (bs : List Str) :
    bqHasNested (x :: bs) = (isPre (S ">") x || bqHasNested bs) := by
  simp [bqHasNested]

/-- The measure accounting of the blockquote consumption: the consumed
(marker-stripped) content plus the unconsumed rest never exceed the
input, and strictly shrink as soon as a stripped line still starts with
`>` (the nested-blockquote trigger). -/
theorem bqConsume_mu : ∀ L : List Str,
    muDoc (bqConsume L).1 + muDoc (bqConsume L).2 ≤ muDoc L ∧
    (bqHasNested (bqConsume L).1 = true →
      muDoc (bqConsume L).1 + muDoc (bqConsume L).2 + 1 ≤ muDoc L) := by
  intro L
  induction L with
  | nil =>
    refine ⟨by simp [bqConsume, muDoc], ?_⟩
    intro h
    simp [bqConsume, bqHasNested] at h
  | cons l rest ih =>
    rw [bqConsume]
    split
    · rcases hb : bqConsume rest with ⟨bs, r⟩
      rw [hb] at ih
      simp only at ih
      have hlen := stripGtMarker_len l
      constructor
      · simp only [muDoc_cons]
        omega
      · intro hn
        rw [bqHasNested_cons] at hn
        have hn2 : isPre (S ">") (stripGtMarker l) = true ∨ bqHasNested bs = true := by
          simpa using hn
        rcases hn2 with hgt | hrest
        · have := stripGtMarker_lt l hgt
          simp only [muDoc_cons]
          omega
        · have := ih.2 hrest
          simp only [muDoc_cons]
          omega
    · split
      · rcases hb : bqConsume rest with ⟨bs, r⟩
        rw [hb] at ih
        simp only at ih
        constructor
        · simp only [muDoc_cons, List.length_nil]
          omega
        · intro hn
          rw [bqHasNested_cons] at hn
          have hn2 : isPre (S ">") ([] : Str) = true ∨ bqHasNested bs = true := by
            simpa using hn
          rcases hn2 with hgt | hrest
          · simp [isPre, S] at hgt
          · have := ih.2 hrest
            simp only [muDoc_cons, List.length_nil]
            omega
      · refine ⟨by simp [muDoc], ?_⟩
        intro h
        simp [bqHasNested] at h

set_option maxHeartbeats 1000000 in
/-- C10: the renderer terminates on every input.  First conjunct: every
single iteration of the block dispatcher — whatever parser it routes to,
including the paragraph fallback — consumes at least one line, so the
unconsumed rest is strictly shorter than the input.  Second conjunct:
whenever a blockquote's consumed content still contains a `>`-prefixed
line (the only case that triggers a recursive document render), the
recursive input is strictly smaller in the character measure `muDoc`, so
the mutual recursion is well-founded as well. -/
theorem c10_dispatcher_strictly_consumes :
    (∀ (fuel : Nat) (output : List Str) (l : Str) (rest : List Str),
        ((parseStep fuel output l rest).2).length < (l :: rest).length) ∧
    ∀ L : List Str, bqHasNested (bqConsume L).1 = true →
      muDoc (splitNl (joinNl (bqConsume L).1)) < muDoc L := by
  constructor
  · intro fuel output l rest
    rw [parseStep, parseStepWith, List.length_cons]
    split_ifs with hb hh hcode hmath htab hq hul hol hhr hhtml
    · exact Nat.lt_succ_of_le (le_refl rest.length)
    · exact Nat.lt_succ_of_le (le_refl rest.length)
    · rw [parseCodeBlock_rest]
      exact Nat.lt_succ_of_le (codeConsume_len rest)
    · rw [parseMathBlock_rest]
      exact Nat.lt_succ_of_le (mathConsume_len rest)
    · rw [parseTable_rest]
      exact Nat.lt_succ_of_le (tableConsume_first l rest htab)
    · rcases hbq : bqConsume (l :: rest) with ⟨bs, r⟩
      simp only [hbq]
      have := bqConsume_first l rest hq
      rw [hbq] at this
      exact Nat.lt_succ_of_le this
    · obtain ⟨hs, ⟨w, cnt, hm⟩, hnol⟩ := ulStartB_elim l hul
      rcases hp : parseUL 0 (l :: rest) with ⟨frag, r⟩
      simp only [hp]
      have hrest : r.length ≤ rest.length := by
        have hr2 : (parseUL 0 (l :: rest)).2 = r := by rw [hp]
        rw [← hr2, parseUL_rest, List.length_cons, parseULGo, if_neg hs]
        simp only [hm]
        rw [if_neg (Nat.not_lt_zero w)]
        by_cases hw : w > 0
        · rw [if_pos hw, if_neg (by simp [hnol])]
          rcases hc : collectUL w (l :: rest) with ⟨sub, r1⟩
          rcases hgo : parseULGo rest.length 0 r1 with ⟨is, r2⟩
          have h1 := collectUL_first l rest w cnt hm hs
          rw [hc] at h1
          have h2 := parseULGo_len rest.length r1 0
          rw [hgo] at h2
          simpa [hc, hgo] using le_trans h2 (by simpa using h1)
        · rw [if_neg hw]
          rcases hgo : parseULGo rest.length 0 rest with ⟨is, r2⟩
          have h2 := parseULGo_len rest.length rest 0
          rw [hgo] at h2
          simpa [hgo] using h2
      exact Nat.lt_succ_of_le hrest
    · obtain ⟨hs, w, cnt, hm⟩ := olStartB_elim l hol
      rcases hp : parseOL 0 (l :: rest) with ⟨frag, r⟩
      simp only [hp]
      have hrest : r.length ≤ rest.length := by
        have hr2 : (parseOL 0 (l :: rest)).2 = r := by rw [hp]
        rw [← hr2, parseOL_rest, List.length_cons, parseOLGo, if_neg hs]
        simp only [hm]
        rw [if_neg (Nat.not_lt_zero w)]
        by_cases hw : w > 0
        · rw [if_pos hw]
          rcases hc : collectOL w (l :: rest) with ⟨sub, r1⟩
          rcases hgo : parseOLGo rest.length 0 1 r1 with ⟨is, r2⟩
          have h1 := collectOL_first l rest w cnt hm hs
          rw [hc] at h1
          have h2 := parseOLGo_len rest.length r1 0 1
          rw [hgo] at h2
          simpa [hc, hgo] using le_trans h2 (by simpa using h1)
        · rw [if_neg hw]
          rcases hgo : parseOLGo rest.length 0 2 rest with ⟨is, r2⟩
          have h2 := parseOLGo_len rest.length rest 0 2
          rw [hgo] at h2
          simpa [hgo] using h2
      exact Nat.lt_succ_of_le hrest
    · exact Nat.lt_succ_of_le (le_refl rest.length)
    · rcases hh2 : htmlConsume false (l :: rest) with ⟨hs2, r⟩
      simp only [hh2]
      have hlt : isPre (S "<") (pyStrip l) = true := by
        have h' := hhtml
        simp only [Bool.and_eq_true] at h'
        exact h'.1
      have := htmlConsume_first l rest hlt
      rw [hh2] at this
      exact Nat.lt_succ_of_le this
    · have hbreak := paraBreak_false_of_neg l hh hcode hmath htab hq hul hol hhr hhtml
      rw [parseParagraph_rest]
      exact Nat.lt_succ_of_le (paraConsume_first l rest hb hbreak)
  · intro L hn
    have h2 := (bqConsume_mu L).2 hn
    have hne : (bqConsume L).1 ≠ [] := by
      intro he
      rw [he] at hn
      simp [bqHasNested] at hn
    have h3 : muDoc (splitNl (joinNl (bqConsume L).1)) = muDoc (bqConsume L).1 := by
      rw [muDoc_splitNl, joinNl_len _ hne]
    omega

/-- C10 witness: one dispatcher step on a one-line document consumes it
entirely, and the nested-blockquote input of `>> a` is strictly smaller
than the document in the character measure. -/
theorem c10_witness :
    ((parseStep 0 [] (S "x") []).2).length < 1 ∧
    muDoc (splitNl (joinNl (bqConsume [S ">> a"]).1))  < muDoc [S ">> a"] :=
  ⟨c10_dispatcher_strictly_consumes.1 0 [] (S "x") [],
   c10_dispatcher_strictly_consumes.2 [S ">> a"] (by decide)⟩

/-! ## C2 (amended): nested list markup as a sibling inside the outer list -/

/-- A deeper list-item line for `_parse_unordered_list` at baseline 0:
a bullet item line at positive indentation (the nested-unordered branch)
or an ordered item line at positive indentation (the nested-ordered
branch); these are the two line shapes the loop turns into nested
fragments. -/
def isDeeperItem (l : Str) : Bool :=
  match ulMatch l with
  | some (w, _) => decide (0 < w)
  | none => olStartB l && decide (0 < wsLen l)

/-- A deeper list-item line for `_parse_ordered_list` at baseline 0: an
ordered item line at positive indentation (that loop nests only
digit-marker lines). -/
def isDeeperOrdItem (l : Str) : Bool :=
  match olMatch l with
  | some (w, _) => decide (0 < w)
  | none => false

/-- Unordered-list entries that are nested fragments, not items. -/
def isNestedEntryUL : ULEntry → Bool
  | .item _ => false
  | .nestedUl _ => true
  | .nestedOl _ => true

/-- Ordered-list entries that are nested fragments, not items. -/
def isNestedEntryOL : OLEntry → Bool
  | .item _ _ => false
  | .nested _ => true

/-- A successful unordered item match implies a nonblank line and
excludes both ordered patterns: the marker character is not a digit. -/
theorem ulMatch_elim (l : Str) (w : Nat) (cnt : Str)
    (h : ulMatch l = some (w, cnt)) :
    pyStrip l ≠ [] ∧ olStartB l = false ∧ olMatch l = none := by
  unfold ulMatch at h
  rcases hd : l.dropWhile pyWs with _ | ⟨m, mrest⟩ <;> rw [hd] at h
  · simp at h
  · rcases mrest with _ | ⟨c, t⟩
    · simp at h
    · simp only [List.head?_cons] at h
      split at h
      · rename_i hcond
        simp only [Bool.and_eq_true, Bool.or_eq_true, decide_eq_true_eq]
          at hcond
        obtain ⟨hm, _⟩ := hcond
        have hdig : m.isDigit = false := by
          rcases hm with (h1 | h1) | h1 <;> (subst h1; decide)
        refine ⟨strip_ne_of_dropWhile l m (c :: t) hd, ?_, ?_⟩
        · unfold olStartB
          rw [hd]
          simp [List.takeWhile_cons, hdig]
        · unfold olMatch
          rw [hd]
          simp [List.takeWhile_cons, hdig]
      · simp at h

/-- A successful ordered item match implies a nonblank line. -/
theorem olMatch_strip_ne (l : Str) (w : Nat) (cnt : Str)
    (h : olMatch l = some (w, cnt)) : pyStrip l ≠ [] := by
  rcases hd : l.dropWhile pyWs with _ | ⟨d, drest⟩
  · exfalso
    unfold olMatch at h
    rw [hd] at h
    simp at h
  · exact strip_ne_of_dropWhile l d drest hd

/-- A successful ordered dispatch test yields a full ordered item match
whose reported indentation is the leading-whitespace width of the
line. -/
theorem olStartB_match (l : Str) (h : olStartB l = true) :
    ∃ cnt, olMatch l = some (wsLen l, cnt) := by
  unfold olStartB at h
  rcases hd : l.dropWhile pyWs with _ | ⟨d, drest⟩
  · rw [hd] at h; simp at h
  · rw [hd] at h
    simp only [Bool.and_eq_true, decide_eq_true_eq] at h
    obtain ⟨hds, hdot⟩ := h
    rcases hdr : (d :: drest).drop ((d :: drest).takeWhile Char.isDigit).length
      with _ | ⟨c1, r1⟩
    · rw [hdr] at hdot; simp at hdot
    · rw [hdr] at hdot
      by_cases hc1 : c1 = '.'
      · subst hc1
        rcases r1 with _ | ⟨c2, t2⟩
        · simp at hdot
        · simp only at hdot
          refine ⟨(c2 :: t2).dropWhile pyWs, ?_⟩
          unfold olMatch
          rw [hd]
          simp only [if_neg hds, hdr]
          simp [hdot]
      · exfalso
        rcases r1 with _ | ⟨c2, t2⟩ <;> simp [hc1] at hdot

/-- The unordered-list loop on no lines produces nothing. -/
theorem parseULGo_nil (fuel indent : Nat) :
    parseULGo fuel indent [] = ([], []) := by
  cases fuel <;> rfl

/-- The ordered-list loop on no lines produces nothing. -/
theorem parseOLGo_nil (fuel indent k : Nat) :
    parseOLGo fuel indent k [] = ([], []) := by
  cases fuel <;> rfl

/-- The unordered collector consumes a line whose item match reports
indentation at least the collection baseline. -/
theorem collectULItems_hit (w : Nat) (l : Str) (rest : List Str) (v : Nat)
    (cnt : Str) (hs : pyStrip l ≠ []) (hm : ulMatch l = some (v, cnt))
    (hv : w ≤ v) :
    collectULItems w (l :: rest) =
      (cnt :: (collectULItems w rest).1, (collectULItems w rest).2) := by
  rw [collectULItems, if_neg hs]
  rcases hrec : collectULItems w rest with ⟨is, r⟩
  simp [hm, hrec, ge_iff_le, hv]

/-- The ordered collector consumes a line whose item match reports
indentation at least the collection baseline, advancing its counter. -/
theorem collectOLItems_hit (w k : Nat) (l : Str) (rest : List Str) (v : Nat)
    (cnt : Str) (hs : pyStrip l ≠ []) (hm : olMatch l = some (v, cnt))
    (hv : w ≤ v) :
    collectOLItems w k (l :: rest) =
      ((cnt, k) :: (collectOLItems w (k + 1) rest).1,
       (collectOLItems w (k + 1) rest).2) := by
  rw [collectOLItems, if_neg hs]
  rcases hrec : collectOLItems w (k + 1) rest with ⟨is, r⟩
  simp [hm, hrec, ge_iff_le, hv]

/-- Whatever the unordered collector does on earlier lines, it never
consumes a final line whose item match reports indentation below the
collection baseline: the unconsumed rest always ends with that line,
preceded only by lines drawn from the earlier ones. -/
theorem collectULItems_stop (w : Nat) :
    ∀ (ds : List Str) (sib : Str),
      (∀ v cv, ulMatch sib = some (v, cv) → ¬w ≤ v) →
      ∃ t, (collectULItems w (ds ++ [sib])).2 = t ++ [sib] ∧
        t.length ≤ ds.length ∧ ∀ x ∈ t, x ∈ ds := by
  intro ds
  induction ds with
  | nil =>
    intro sib hstop
    refine ⟨[], ?_, Nat.le_refl _, by simp⟩
    rw [List.nil_append, collectULItems]
    split
    · simp
    · rcases hm : ulMatch sib with _ | ⟨v, cv⟩
      · simp [hm]
      · have hv := hstop v cv hm
        simp [hm, ge_iff_le, hv]
  | cons e es ih =>
    intro sib hstop
    rw [List.cons_append, collectULItems]
    split
    · exact ⟨e :: es, by simp, Nat.le_refl _, fun x hx => hx⟩
    · rcases hm : ulMatch e with _ | ⟨v, cv⟩
      · exact ⟨e :: es, by simp [hm], Nat.le_refl _, fun x hx => hx⟩
      · by_cases hv : w ≤ v
        · obtain ⟨t, ht, hlen, hmem⟩ := ih sib hstop
          refine ⟨t, ?_, Nat.le_succ_of_le hlen,
            fun x hx => List.mem_cons_of_mem e (hmem x hx)⟩
          rcases hrec : collectULItems w (es ++ [sib]) with ⟨is, r⟩
          rw [hrec] at ht
          simpa [hm, ge_iff_le, hv, hrec] using ht
        · exact ⟨e :: es, by simp [hm, ge_iff_le, hv], Nat.le_refl _,
            fun x hx => hx⟩

/-- The ordered analogue of the collector-stop property, for any counter
value. -/
theorem collectOLItems_stop (w : Nat) :
    ∀ (ds : List Str) (k : Nat) (sib : Str),
      (∀ v cv, olMatch sib = some (v, cv) → ¬w ≤ v) →
      ∃ t, (collectOLItems w k (ds ++ [sib])).2 = t ++ [sib] ∧
        t.length ≤ ds.length ∧ ∀ x ∈ t, x ∈ ds := by
  intro ds
  induction ds with
  | nil =>
    intro k sib hstop
    refine ⟨[], ?_, Nat.le_refl _, by simp⟩
    rw [List.nil_append, collectOLItems]
    split
    · simp
    · rcases hm : olMatch sib with _ | ⟨v, cv⟩
      · simp [hm]
      · have hv := hstop v cv hm
        simp [hm, ge_iff_le, hv]
  | cons e es ih =>
    intro k sib hstop
    rw [List.cons_append, collectOLItems]
    split
    · exact ⟨e :: es, by simp, Nat.le_refl _, fun x hx => hx⟩
    · rcases hm : olMatch e with _ | ⟨v, cv⟩
      · exact ⟨e :: es, by simp [hm], Nat.le_refl _, fun x hx => hx⟩
      · by_cases hv : w ≤ v
        · obtain ⟨t, ht, hlen, hmem⟩ := ih (k + 1) sib hstop
          refine ⟨t, ?_, Nat.le_succ_of_le hlen,
            fun x hx => List.mem_cons_of_mem e (hmem x hx)⟩
          rcases hrec : collectOLItems w (k + 1) (es ++ [sib]) with ⟨is, r⟩
          rw [hrec] at ht
          simpa [hm, ge_iff_le, hv, hrec] using ht
        · exact ⟨e :: es, by simp [hm, ge_iff_le, hv], Nat.le_refl _,
            fun x hx => hx⟩

/-- The unordered-list loop at baseline 0, run on any sequence of deeper
list-item lines (either marker style, any positive indentations)
followed by one baseline item line, produces only nested entries
followed by the one item entry, and consumes everything. -/
theorem parseULGo_deeper :
    ∀ (fuel : Nat) (deeper : List Str) (sib c : Str),
      (∀ l ∈ deeper, isDeeperItem l = true) →
      ulMatch sib = some (0, c) →
      deeper.length + 1 ≤ fuel →
      ∃ ns, (∀ e ∈ ns, isNestedEntryUL e = true) ∧
        parseULGo fuel 0 (deeper ++ [sib]) = (ns ++ [ULEntry.item c], []) := by
  intro fuel
  induction fuel with
  | zero =>
    intro deeper sib c _ _ hf
    exact absurd hf (by omega)
  | succ fuel ih =>
    intro deeper sib c hdeep hsib hf
    cases deeper with
    | nil =>
      obtain ⟨hs, _, _⟩ := ulMatch_elim sib 0 c hsib
      refine ⟨[], by simp, ?_⟩
      rw [List.nil_append, parseULGo, if_neg hs]
      simp only [hsib]
      rw [if_neg (lt_irrefl 0), if_neg (lt_irrefl 0)]
      simp [parseULGo_nil]
    | cons d ds =>
      have hd1 : isDeeperItem d = true := hdeep d (List.mem_cons_self d ds)
      have hds : ∀ l ∈ ds, isDeeperItem l = true :=
        fun x hx => hdeep x (List.mem_cons_of_mem d hx)
      have hf2 : ds.length + 1 ≤ fuel := by
        simp only [List.length_cons] at hf
        omega
      unfold isDeeperItem at hd1
      rcases hm : ulMatch d with _ | ⟨v, cnt⟩
      · -- deeper ordered line inside the unordered list
        rw [hm] at hd1
        simp only [Bool.and_eq_true, decide_eq_true_eq] at hd1
        obtain ⟨hol, hwl⟩ := hd1
        obtain ⟨hsd, _⟩ := olStartB_elim d hol
        obtain ⟨cnt2, hmd⟩ := olStartB_match d hol
        rcases hcol : collectOL (wsLen d) (d :: (ds ++ [sib])) with ⟨sub, r1⟩
        have h1 : (collectOL (wsLen d) (d :: (ds ++ [sib]))).2
            = (collectOLItems (wsLen d) 1 (d :: (ds ++ [sib]))).2 := rfl
        rw [hcol,
          collectOLItems_hit (wsLen d) 1 d (ds ++ [sib]) (wsLen d) cnt2 hsd
            hmd (Nat.le_refl _)] at h1
        obtain ⟨hss, _, hnone⟩ := ulMatch_elim sib 0 c hsib
        obtain ⟨t, ht, hlen, hmem⟩ := collectOLItems_stop (wsLen d) ds 2 sib
          (fun v2 cv hveq => by rw [hnone] at hveq; exact Option.noConfusion hveq)
        have hr1 : r1 = t ++ [sib] := h1.trans ht
        obtain ⟨ns2, hns2, hgo⟩ := ih t sib c (fun x hx => hds x (hmem x hx))
          hsib (by omega)
        refine ⟨ULEntry.nestedOl sub :: ns2, ?_, ?_⟩
        · intro e he
          rcases List.mem_cons.mp he with rfl | he2
          · rfl
          · exact hns2 e he2
        · have hstep : parseULGo (fuel + 1) 0 (d :: (ds ++ [sib])) =
              (ULEntry.nestedOl sub :: ns2 ++ [ULEntry.item c], []) := by
            rw [parseULGo]
            simp [hsd, hm, hol, hwl, hcol, hr1, hgo]
          rw [List.cons_append]
          exact hstep
      · -- deeper bullet line
        rw [hm] at hd1
        simp only [decide_eq_true_eq] at hd1
        obtain ⟨hsd, holB, _⟩ := ulMatch_elim d v cnt hm
        rcases hcol : collectUL v (d :: (ds ++ [sib])) with ⟨sub, r1⟩
        have h1 : (collectUL v (d :: (ds ++ [sib]))).2
            = (collectULItems v (d :: (ds ++ [sib]))).2 := rfl
        rw [hcol,
          collectULItems_hit v d (ds ++ [sib]) v cnt hsd hm (Nat.le_refl _)]
          at h1
        obtain ⟨t, ht, hlen, hmem⟩ := collectULItems_stop v ds sib
          (fun v2 cv hveq => by
            have h0 := hsib.symm.trans hveq
            simp only [Option.some.injEq, Prod.mk.injEq] at h0
            obtain ⟨h01, _⟩ := h0
            omega)
        have hr1 : r1 = t ++ [sib] := h1.trans ht
        obtain ⟨ns2, hns2, hgo⟩ := ih t sib c (fun x hx => hds x (hmem x hx))
          hsib (by omega)
        refine ⟨ULEntry.nestedUl sub :: ns2, ?_, ?_⟩
        · intro e he
          rcases List.mem_cons.mp he with rfl | he2
          · rfl
          · exact hns2 e he2
        · have hstep : parseULGo (fuel + 1) 0 (d :: (ds ++ [sib])) =
              (ULEntry.nestedUl sub :: ns2 ++ [ULEntry.item c], []) := by
            rw [parseULGo]
            simp [hsd, hm, holB, hd1, Nat.not_lt_zero, hcol, hr1, hgo]
          rw [List.cons_append]
          exact hstep

/-- The ordered-list loop at baseline 0, run on any sequence of deeper
ordered item lines followed by one baseline ordered item line, produces
only nested entries followed by the one item entry (whose ordinal is the
incoming counter, since nested entries do not advance it), and consumes
everything. -/
theorem parseOLGo_deeper :
    ∀ (fuel : Nat) (deeper : List Str) (sib c : Str) (k : Nat),
      (∀ l ∈ deeper, isDeeperOrdItem l = true) →
      olMatch sib = some (0, c) →
      deeper.length + 1 ≤ fuel →
      ∃ ns, (∀ e ∈ ns, isNestedEntryOL e = true) ∧
        parseOLGo fuel 0 k (deeper ++ [sib]) =
          (ns ++ [OLEntry.item c k], []) := by
  intro fuel
  induction fuel with
  | zero =>
    intro deeper sib c k _ _ hf
    exact absurd hf (by omega)
  | succ fuel ih =>
    intro deeper sib c k hdeep hsib hf
    cases deeper with
    | nil =>
      have hs := olMatch_strip_ne sib 0 c hsib
      refine ⟨[], by simp, ?_⟩
      rw [List.nil_append, parseOLGo, if_neg hs]
      simp only [hsib]
      rw [if_neg (lt_irrefl 0), if_neg (lt_irrefl 0)]
      simp [parseOLGo_nil]
    | cons d ds =>
      have hd1 : isDeeperOrdItem d = true := hdeep d (List.mem_cons_self d ds)
      have hds : ∀ l ∈ ds, isDeeperOrdItem l = true :=
        fun x hx => hdeep x (List.mem_cons_of_mem d hx)
      have hf2 : ds.length + 1 ≤ fuel := by
        simp only [List.length_cons] at hf
        omega
      unfold isDeeperOrdItem at hd1
      rcases hm : olMatch d with _ | ⟨v, cnt⟩
      · rw [hm] at hd1
        simp at hd1
      · rw [hm] at hd1
        simp only [decide_eq_true_eq] at hd1
        have hsd := olMatch_strip_ne d v cnt hm
        rcases hcol : collectOL v (d :: (ds ++ [sib])) with ⟨sub, r1⟩
        have h1 : (collectOL v (d :: (ds ++ [sib]))).2
            = (collectOLItems v 1 (d :: (ds ++ [sib]))).2 := rfl
        rw [hcol,
          collectOLItems_hit v 1 d (ds ++ [sib]) v cnt hsd hm (Nat.le_refl _)]
          at h1
        obtain ⟨t, ht, hlen, hmem⟩ := collectOLItems_stop v ds 2 sib
          (fun v2 cv hveq => by
            have h0 := hsib.symm.trans hveq
            simp only [Option.some.injEq, Prod.mk.injEq] at h0
            obtain ⟨h01, _⟩ := h0
            omega)
        have hr1 : r1 = t ++ [sib] := h1.trans ht
        obtain ⟨ns2, hns2, hgo⟩ := ih t sib c k (fun x hx => hds x (hmem x hx))
          hsib (by omega)
        refine ⟨OLEntry.nested sub :: ns2, ?_, ?_⟩
        · intro e he
          rcases List.mem_cons.mp he with rfl | he2
          · rfl
          · exact hns2 e he2
        · have hstep : parseOLGo (fuel + 1) 0 k (d :: (ds ++ [sib])) =
              (OLEntry.nested sub :: ns2 ++ [OLEntry.item c k], []) := by
            rw [parseOLGo]
            simp [hsd, hm, hd1, Nat.not_lt_zero, hcol, hr1, hgo]
          rw [List.cons_append]
          exact hstep

/-- C2 (amended): for every input made of one item line at the baseline,
any number of list-item lines at strictly greater indentation, and one
sibling item line at the baseline, the list parser consumes everything
and produces one outer list fragment whose parts are, in order: the
container opening, the first item element, the nested list fragments,
the second item element, and the container close — every nested list's
markup is a sibling of the item elements inside the outer container,
never content of the first item element.  Part one covers the unordered
parser, where the deeper lines may mix both marker styles; part two
covers the ordered parser, whose deeper lines are ordered item lines,
because — part three — a bullet line, at any indentation, ends an
ordered list instead of nesting. -/
theorem c2_amended_nested_list_sibling :
    (∀ (la lc a c : Str) (deeper : List Str),
        ulMatch la = some (0, a) →
        (∀ l ∈ deeper, isDeeperItem l = true) →
        ulMatch lc = some (0, c) →
        ∃ ns, (∀ e ∈ ns, isNestedEntryUL e = true) ∧
          parseULGo (deeper.length + 2) 0 (la :: (deeper ++ [lc])) =
            (ULEntry.item a :: ns ++ [ULEntry.item c], []) ∧
          parseUL 0 (la :: (deeper ++ [lc])) =
            (joinNl (ulOpen :: ulLi a :: ns.map ulEntryHtml ++
              [ulLi c, S "</ul>"]), [])) ∧
    (∀ (la lc a c : Str) (deeper : List Str),
        olMatch la = some (0, a) →
        (∀ l ∈ deeper, isDeeperOrdItem l = true) →
        olMatch lc = some (0, c) →
        ∃ ns, (∀ e ∈ ns, isNestedEntryOL e = true) ∧
          parseOLGo (deeper.length + 2) 0 1 (la :: (deeper ++ [lc])) =
            (OLEntry.item a 1 :: ns ++ [OLEntry.item c 2], []) ∧
          parseOL 0 (la :: (deeper ++ [lc])) =
            (joinNl (olOpen :: olLi a 1 :: ns.map olEntryHtml ++
              [olLi c 2, S "</ol>"]), [])) ∧
    (∀ (fuel indent k : Nat) (l : Str) (rest : List Str) (w : Nat) (cnt : Str),
        ulMatch l = some (w, cnt) →
        parseOLGo (fuel + 1) indent k (l :: rest) = ([], l :: rest)) := by
  refine ⟨?_, ?_, ?_⟩
  · intro la lc a c deeper hla hdeep hlc
    obtain ⟨hsa, _, _⟩ := ulMatch_elim la 0 a hla
    obtain ⟨ns, hns, hgo⟩ := parseULGo_deeper (deeper.length + 1) deeper lc c
      hdeep hlc (Nat.le_refl _)
    have hstep : parseULGo (deeper.length + 1 + 1) 0 (la :: (deeper ++ [lc])) =
        (ULEntry.item a :: ns ++ [ULEntry.item c], []) := by
      rw [parseULGo, if_neg hsa]
      simp only [hla]
      rw [if_neg (lt_irrefl 0), if_neg (lt_irrefl 0)]
      simp [hgo]
    have hlen : (la :: (deeper ++ [lc])).length = deeper.length + 1 + 1 := by
      simp
    refine ⟨ns, hns, hstep, ?_⟩
    unfold parseUL
    rw [hlen, hstep]
    simp [ulRender, ulEntryHtml]
  · intro la lc a c deeper hla hdeep hlc
    have hsa := olMatch_strip_ne la 0 a hla
    obtain ⟨ns, hns, hgo⟩ := parseOLGo_deeper (deeper.length + 1) deeper lc c 2
      hdeep hlc (Nat.le_refl _)
    have hstep : parseOLGo (deeper.length + 1 + 1) 0 1
        (la :: (deeper ++ [lc])) =
        (OLEntry.item a 1 :: ns ++ [OLEntry.item c 2], []) := by
      rw [parseOLGo, if_neg hsa]
      simp only [hla]
      rw [if_neg (lt_irrefl 0), if_neg (lt_irrefl 0)]
      simp [hgo]
    have hlen : (la :: (deeper ++ [lc])).length = deeper.length + 1 + 1 := by
      simp
    refine ⟨ns, hns, hstep, ?_⟩
    unfold parseOL
    rw [hlen, hstep]
    simp [olRender, olEntryHtml]
  · intro fuel indent k l rest w cnt hm
    obtain ⟨hs, _, hnone⟩ := ulMatch_elim l w cnt hm
    rw [parseOLGo, if_neg hs]
    simp [hnone]

/-- C2 witness: concrete inputs exercising all three parts — an
unordered outer list over a deeper block that mixes bullet markers at
two indentations with an ordered line, an ordered outer list over two
deeper ordered lines, and a deeper bullet line ending an ordered
list. -/
theorem c2_witness :
    (parseUL 0 [S "- a", S "  - b", S "    * c", S "  1. d", S "- e"]).2
        = [] ∧
    (parseOL 0 [S "1. a", S "  2. b", S "  3. c", S "2. d"]).2 = [] ∧
    parseOLGo 1 0 1 [S "  - x"] = ([], [S "  - x"]) := by
  refine ⟨?_, ?_, ?_⟩
  · obtain ⟨ns, _, _, hr⟩ := c2_amended_nested_list_sibling.1 (S "- a")
      (S "- e") (S "a") (S "e") [S "  - b", S "    * c", S "  1. d"]
      (by decide) (by decide) (by decide)
    simp only [List.cons_append, List.nil_append] at hr
    rw [hr]
  · obtain ⟨ns, _, _, hr⟩ := c2_amended_nested_list_sibling.2.1 (S "1. a")
      (S "2. d") (S "a") (S "d") [S "  2. b", S "  3. c"]
      (by decide) (by decide) (by decide)
    simp only [List.cons_append, List.nil_append] at hr
    rw [hr]
  · exact c2_amended_nested_list_sibling.2.2 0 0 1 (S "  - x") [] 2 (S "x")
      (by decide)

end MdRender
